import Mathlib

/-!
Verification of the equation-solving engine of `backend/math_solver.py`.

The development shallowly embeds the solver pipeline: the text normalizer
(`_preprocess`), the domain validator (`_check_impossible`), the mistake
detector (`_detect_mistakes`), the explanation generator
(`_generate_explanation`), the equation/expression branches
(`_solve_equation`, `_evaluate_expression`) and the public entry point
`MathSolver.solve`.  Strings are modelled as lists of characters; the
regular expressions used by the Python code are modelled by equivalent
deterministic scanners; the sympy library calls (`parse_expr`, `solve`,
`simplify`, `evalf`) are modelled for the fragment of inputs the solver
actually feeds them (polynomial equations of degree at most two and exact
rational arithmetic), with the behaviour of unsupported fragments modelled
as the library call failing, which the Python code catches and converts to
an error result.

Exact rational arithmetic is implemented from scratch (`Q`) so that every
definition evaluates inside the kernel.
-/

namespace MathSolver

/-- Fuel-driven Euclidean algorithm; `fuel = a + 1` always suffices. -/
def gcdAux : Nat → Nat → Nat → Nat
| 0, a, b => a + b
| fuel + 1, a, b => if a = 0 then b else gcdAux fuel (b % a) a

/-- Greatest common divisor, kernel-reducible. -/
def qgcd (a b : Nat) : Nat := gcdAux (a + 1) a b

/-- Exact rational numbers, kernel-reducible.  Values built by the smart
constructor `Q.mk'` and the arithmetic below are always normalized
(positive denominator, reduced fraction), so structural equality agrees
with equality of values. -/
structure Q where
  n : Int
  d : Int
deriving DecidableEq, Repr

/-- Normalizing constructor; assumes a nonzero denominator. -/
def Q.mk' (a b : Int) : Q :=
  let b' : Int := if b < 0 then -b else b
  let a' : Int := if b < 0 then -a else a
  let g : Nat := qgcd a'.natAbs b'.natAbs
  if g = 0 then ⟨0, 1⟩ else ⟨a' / (g : Int), b' / (g : Int)⟩

def Q.ofInt (a : Int) : Q := ⟨a, 1⟩

def Q.add (x y : Q) : Q := Q.mk' (x.n * y.d + y.n * x.d) (x.d * y.d)

def Q.sub (x y : Q) : Q := Q.mk' (x.n * y.d - y.n * x.d) (x.d * y.d)

def Q.mul (x y : Q) : Q := Q.mk' (x.n * y.n) (x.d * y.d)

def Q.neg (x : Q) : Q := ⟨-x.n, x.d⟩

/-- Division; caller checks the divisor is nonzero. -/
def Q.div (x y : Q) : Q := Q.mk' (x.n * y.d) (x.d * y.n)

def Q.zero : Q := ⟨0, 1⟩

def Q.isZero (x : Q) : Bool := x.n = 0

def Q.isInt (x : Q) : Bool := x.d = 1

def Q.powNat (x : Q) : Nat → Q
| 0 => ⟨1, 1⟩
| k + 1 => (Q.powNat x k).mul x

/-- Sign test: positive. -/
def Q.isPos (x : Q) : Bool := 0 < x.n

/-- Sign test: negative. -/
def Q.isNeg (x : Q) : Bool := x.n < 0

/-- Decimal-literal value `intPart.fracDigits`. -/
def Q.ofDecimal (ip : Nat) (fracDigits : List Nat) : Q :=
  let den : Nat := 10 ^ fracDigits.length
  let frac : Nat := fracDigits.foldl (fun acc d => acc * 10 + d) 0
  Q.mk' ((ip : Int) * (den : Int) + (frac : Int)) (den : Int)

/-- Rational square root when it exists (perfect squares); the solver uses
it only to decide whether a quadratic discriminant has an exact root. -/
def natSqrtExact (m : Nat) : Option Nat :=
  (List.range (m + 1)).find? (fun k => k * k = m)

def Q.sqrtExact (x : Q) : Option Q :=
  if x.n < 0 then none
  else
    match natSqrtExact x.n.natAbs, natSqrtExact x.d.natAbs with
    | some a, some b => some (Q.mk' (a : Int) (b : Int))
    | _, _ => none

/-- Integer-style rendering used by sympy for rationals: `2`, `-3`,
`1/2`, `-1/2`. -/
def Q.render (x : Q) : String :=
  if x.d = 1 then toString x.n else toString x.n ++ "/" ++ toString x.d

/-! ### Character classes

`[a-zA-Z]`, `\d` and `\s` as used by the Python regular expressions. -/

/-- ASCII letter, the class `[a-zA-Z]` of the insertion rules. -/
def isAsciiLetter (c : Char) : Bool := c.isAlpha

/-- ASCII digit, the class `\d`. -/
def isDigitC (c : Char) : Bool := c.isDigit

/-- Whitespace, the class `\s` (and the set stripped by `str.strip`). -/
def isSpaceC (c : Char) : Bool := c.isWhitespace

/-! ### Normalizer (`_preprocess`, lines 202-234)

Each `re.sub`/`str.replace` pass is modelled by a recursive scanner with
the same left-to-right, non-overlapping semantics: after a match the scan
resumes past the matched text, otherwise it advances one character. -/

/-- Unicode superscript digits and their plain forms (lines 207-210). -/
def superDigit (c : Char) : Option Char :=
  if c = '⁰' then some '0' else if c = '¹' then some '1'
  else if c = '²' then some '2' else if c = '³' then some '3'
  else if c = '⁴' then some '4' else if c = '⁵' then some '5'
  else if c = '⁶' then some '6' else if c = '⁷' then some '7'
  else if c = '⁸' then some '8' else if c = '⁹' then some '9'
  else none

/-- Character-by-character replacement where `f c = some cs` rewrites `c`
to the block `cs`; models the chain of `str.replace` calls. -/
def repl (f : Char → Option (List Char)) : List Char → List Char
| [] => []
| c :: r =>
  (match f c with
   | some cs => cs
   | none => [c]) ++ repl f r

/-- Superscript expansion `⁲ ↦ **2` (lines 211-212). -/
def superF (c : Char) : Option (List Char) :=
  match superDigit c with
  | some d => some ['*', '*', d]
  | none => none

/-- Caret substitution `^ ↦ **` (line 219). -/
def caretF (c : Char) : Option (List Char) :=
  if c = '^' then some ['*', '*'] else none

/-- Multiplication sign substitution `× ↦ *` (line 220). -/
def mulSignF (c : Char) : Option (List Char) :=
  if c = '×' then some ['*'] else none

/-- Division sign substitution `÷ ↦ /` (line 220). -/
def divSignF (c : Char) : Option (List Char) :=
  if c = '÷' then some ['/'] else none

/-- Minus-variant substitution `−, — ↦ -` (line 221). -/
def minusF (c : Char) : Option (List Char) :=
  if c = '−' ∨ c = '—' then some ['-'] else none

/-- The collapse pass `re.sub(r'\*\*(\d)\*\*(\d)', r'**\1\2', eq)`
(line 216): rewrites `**d**e` (digits `d`, `e`) to `**de`. -/
def collapse : List Char → List Char
| '*' :: '*' :: a :: '*' :: '*' :: b :: r =>
  if isDigitC a && isDigitC b then '*' :: '*' :: a :: b :: collapse r
  else '*' :: collapse ('*' :: a :: '*' :: '*' :: b :: r)
| c :: r => c :: collapse r
| [] => []

/-- Generic implicit-multiplication insertion: a `*` between every
adjacent pair satisfying `q`, scanning left to right and resuming after
each match, exactly as `re.sub(r'XY', r'X*Y', eq)` does. -/
def ins (q : Char → Char → Bool) : List Char → List Char
| a :: b :: r =>
  if q a b then a :: '*' :: b :: ins q r
  else a :: ins q (b :: r)
| l => l

/-- Boundary of `re.sub(r'(\d)([a-zA-Z])', ...)` (line 224). -/
def qDigitLetter (a b : Char) : Bool := isDigitC a && isAsciiLetter b

/-- Boundary of `re.sub(r'\)\(', ...)` (line 226). -/
def qParenParen (a b : Char) : Bool := a = ')' && b = '('

/-- Boundary of `re.sub(r'(\d)\(', ...)` (line 228). -/
def qDigitParen (a b : Char) : Bool := isDigitC a && b = '('

/-- Boundary of `re.sub(r'([a-zA-Z])\(', ...)` (line 230). -/
def qLetterParen (a b : Char) : Bool := isAsciiLetter a && b = '('

/-- Boundary of `re.sub(r'\)([a-zA-Z])', ...)` (line 232). -/
def qParenLetter (a b : Char) : Bool := a = ')' && isAsciiLetter b

/-- Drop trailing whitespace. -/
def trimRight : List Char → List Char
| [] => []
| c :: r =>
  match trimRight r with
  | [] => if isSpaceC c then [] else [c]
  | t => c :: t

/-- `str.strip()` (line 234). -/
def pyStrip (l : List Char) : List Char := trimRight (l.dropWhile isSpaceC)

/-- The full normalization pipeline of `_preprocess` on character
lists, passes applied in source order. -/
def preprocessL (l : List Char) : List Char :=
  pyStrip (ins qParenLetter (ins qLetterParen (ins qDigitParen (ins qParenParen
    (ins qDigitLetter (repl minusF (repl divSignF (repl mulSignF
      (repl caretF (collapse (repl superF l)))))))))))

/-- `_preprocess` (lines 202-234).  An empty (falsy) input returns `""`
immediately. -/
def preprocess (s : String) : String :=
  if s.data = [] then "" else ⟨preprocessL s.data⟩

/-! ### Regular-expression models

Each `re.search(pattern, eq)` in `_check_impossible` and
`_detect_mistakes` is modelled by a scanner that tries a deterministic
match at every position.  For each of these patterns the greedy
deterministic match is equivalent to the backtracking semantics because
the adjacent character classes are disjoint. -/

/-- `re.search`: does the position-wise matcher succeed at any suffix? -/
def search (f : List Char → Bool) : List Char → Bool
| [] => f []
| l@(_ :: r) => f l || search f r

/-- Consume a literal character sequence. -/
def dropLit : List Char → List Char → Option (List Char)
| [], l => some l
| c :: p, d :: l => if d = c then dropLit p l else none
| _ :: _, [] => none

/-- Consume a literal character sequence case-insensitively (the pattern
is given in lowercase); models `re.IGNORECASE`. -/
def dropLitCI : List Char → List Char → Option (List Char)
| [], l => some l
| c :: p, d :: l => if d.toLower = c then dropLitCI p l else none
| _ :: _, [] => none

/-- The character class `[2-9]`. -/
def isTwoToNine (c : Char) : Bool := isDigitC c && c ≠ '0' && c ≠ '1'

/-- The character class `[1-9]`. -/
def isOneToNine (c : Char) : Bool := isDigitC c && c ≠ '0'

/-- Positionwise match of `NAME\s*\(?\s*x\s*\)?\s*=\s*([2-9]|1\.[1-9])`
(lines 118 and 130, with `NAME` being `sin` or `cos`). -/
def matchTrigRangeAt (fname : List Char) (l : List Char) : Bool :=
  match dropLit fname l with
  | none => false
  | some l1 =>
    let l2 := l1.dropWhile isSpaceC
    let l3 := match l2 with | '(' :: r => r | _ => l2
    match l3.dropWhile isSpaceC with
    | 'x' :: l5 =>
      let l6 := l5.dropWhile isSpaceC
      let l7 := match l6 with | ')' :: r => r | _ => l6
      match l7.dropWhile isSpaceC with
      | '=' :: l9 =>
        (match l9.dropWhile isSpaceC with
         | c :: rest =>
           isTwoToNine c ||
             (c = '1' && match rest with
               | '.' :: d :: _ => isOneToNine d
               | _ => false)
         | [] => false)
      | _ => false
    | _ => false

/-- Positionwise match of `NAME\s*\(\s*-\d+\s*\)` (lines 143 and 156,
with `NAME` among `log`, `ln`, `sqrt`). -/
def matchFnNegParenAt (fname : List Char) (l : List Char) : Bool :=
  match dropLit fname l with
  | none => false
  | some l1 =>
    match l1.dropWhile isSpaceC with
    | '(' :: l3 =>
      (match l3.dropWhile isSpaceC with
       | '-' :: d :: l6 =>
         isDigitC d &&
           (match (l6.dropWhile isDigitC).dropWhile isSpaceC with
            | ')' :: _ => true
            | _ => false)
       | _ => false)
    | _ => false

/-- Positionwise match of `√\s*-\d+` (line 156). -/
def matchRadNegAt (l : List Char) : Bool :=
  match l with
  | '√' :: r =>
    (match r.dropWhile isSpaceC with
     | '-' :: d :: _ => isDigitC d
     | _ => false)
  | _ => false

def checkSinRange (l : List Char) : Bool := search (matchTrigRangeAt ['s', 'i', 'n']) l

def checkCosRange (l : List Char) : Bool := search (matchTrigRangeAt ['c', 'o', 's']) l

def checkLogNeg (l : List Char) : Bool :=
  search (fun t => matchFnNegParenAt ['l', 'o', 'g'] t || matchFnNegParenAt ['l', 'n'] t) l

def checkSqrtNeg (l : List Char) : Bool :=
  search (fun t => matchFnNegParenAt ['s', 'q', 'r', 't'] t || matchRadNegAt t) l

/-! ### Result records -/

/-- One entry of the `common_mistakes` list (`_detect_mistakes`,
lines 176-181). -/
structure MistakeHit where
  id : String
  wrong_approach : String
  correct_approach : String
  tip : String
deriving DecidableEq, Repr

/-- The dictionary returned by `MathSolver.solve` and its helpers.
Python result dictionaries omit some keys on some paths; absent keys are
modelled as `none` / `[]`. -/
structure SolveResult where
  answer : String
  steps : List String
  explanation : String
  type : String
  is_impossible : Bool
  impossible_reason : Option String := none
  suggestion : Option String := none
  common_mistakes : List MistakeHit := []
  explanation_mode : Option String := none
deriving DecidableEq, Repr

/-- `_check_impossible` (lines 113-168): textual pre-checks evaluated in
source order, first match wins. -/
def checkImpossible (eq : String) : Option SolveResult :=
  if checkSinRange eq.data then
    some { answer := "No real solution"
         , steps := ["sin(x) can only equal values between -1 and 1"]
         , explanation := "The sine function always returns values in [-1, 1]"
         , type := "impossible"
         , is_impossible := true
         , impossible_reason := some "sin(x) = value where |value| > 1 has no real solution"
         , suggestion := some "Did you copy the question correctly? Check if the value is within [-1, 1]"
         , common_mistakes := [] }
  else if checkCosRange eq.data then
    some { answer := "No real solution"
         , steps := ["cos(x) can only equal values between -1 and 1"]
         , explanation := "The cosine function always returns values in [-1, 1]"
         , type := "impossible"
         , is_impossible := true
         , impossible_reason := some "cos(x) = value where |value| > 1 has no real solution"
         , suggestion := some "Did you copy the question correctly?"
         , common_mistakes := [] }
  else if checkLogNeg eq.data then
    some { answer := "Undefined"
         , steps := ["Logarithm of a negative number is undefined in real numbers"]
         , explanation := "log(x) only works for x > 0"
         , type := "impossible"
         , is_impossible := true
         , impossible_reason := some "Logarithm of negative numbers is undefined in real numbers"
         , suggestion := some "Check if the number inside log() is positive"
         , common_mistakes := [] }
  else if checkSqrtNeg eq.data then
    some { answer := "No real solution"
         , steps := ["Square root of a negative number is imaginary, not real"]
         , explanation := "√(-x) gives imaginary numbers (uses i = √-1)"
         , type := "impossible"
         , is_impossible := true
         , impossible_reason := some "Square root of negative = imaginary number"
         , suggestion := some "For real solutions, the number under √ must be ≥ 0"
         , common_mistakes := [] }
  else none

/-! ### Mistake detector (`_detect_mistakes` and `COMMON_MISTAKES`) -/

/-- Scan forward over non-newline characters for `)`; the tail of the
pattern `.*\)`. -/
def scanCloseParen : List Char → Bool
| ')' :: _ => true
| '\n' :: _ => false
| _ :: r => scanCloseParen r
| [] => false

/-- Scan forward over non-newline characters for `+` and then `)`; the
tail of the pattern `.*\+.*\)`. -/
def scanPlusParen : List Char → Bool
| '+' :: r => scanCloseParen r || scanPlusParen r
| '\n' :: _ => false
| _ :: r => scanPlusParen r
| [] => false

/-- Scan forward over non-newline characters for a case-insensitive
literal; the tail of a pattern `.*WORD` under `re.IGNORECASE`. -/
def scanForCI (w : List Char) : List Char → Bool
| [] => (dropLitCI w []).isSome
| l@(c :: r) => (dropLitCI w l).isSome || (c ≠ '\n' && scanForCI w r)

/-- Pattern `√\(.*\+.*\)` (rule `sqrt_addition`). -/
def matchSqrtAddition (l : List Char) : Bool :=
  search (fun t =>
    match t with
    | '√' :: '(' :: r => scanPlusParen r
    | _ => false) l

/-- Pattern `log\(.*\+.*\)` (rule `log_addition`, case-insensitive). -/
def matchLogAddition (l : List Char) : Bool :=
  search (fun t =>
    match dropLitCI ['l', 'o', 'g', '('] t with
    | some r => scanPlusParen r
    | none => false) l

/-- Pattern `∫|integral` (rule `forgot_plus_c`, case-insensitive). -/
def matchIntegralSign (l : List Char) : Bool :=
  search (fun t =>
    match t with
    | '∫' :: _ => true
    | _ => (dropLitCI ['i', 'n', 't', 'e', 'g', 'r', 'a', 'l'] t).isSome) l

/-- Pattern `sin.*cos|cos.*sin` (rule `trig_identity`, case-insensitive). -/
def matchTrigIdentity (l : List Char) : Bool :=
  search (fun t =>
    (match dropLitCI ['s', 'i', 'n'] t with
     | some r => scanForCI ['c', 'o', 's'] r
     | none => false) ||
    (match dropLitCI ['c', 'o', 's'] t with
     | some r => scanForCI ['s', 'i', 'n'] r
     | none => false)) l

/-- Pattern `√-|sqrt\(-` (rule `negative_sqrt`, case-insensitive). -/
def matchNegativeSqrt (l : List Char) : Bool :=
  search (fun t =>
    match t with
    | '√' :: '-' :: _ => true
    | _ => (dropLitCI ['s', 'q', 'r', 't', '(', '-'] t).isSome) l

/-- Pattern `/0|÷0` (rule `zero_division`). -/
def matchZeroDivision (l : List Char) : Bool :=
  search (fun t =>
    match t with
    | '/' :: '0' :: _ => true
    | '÷' :: '0' :: _ => true
    | _ => false) l

/-- One rule of the `COMMON_MISTAKES` table (lines 16-53). -/
structure MistakeRule where
  id : String
  test : List Char → Bool
  wrong : String
  correct : String
  tip : String

/-- The `COMMON_MISTAKES` table in its Python insertion order. -/
def commonMistakes : List MistakeRule :=
  [ ⟨"sqrt_addition", matchSqrtAddition,
     "√(a+b) = √a + √b",
     "√(a+b) ≠ √a + √b. You cannot split square roots over addition.",
     "Only √(a×b) = √a × √b works for multiplication!"⟩
  , ⟨"log_addition", matchLogAddition,
     "log(a+b) = log(a) + log(b)",
     "log(a×b) = log(a) + log(b), NOT log(a+b)",
     "Logarithm addition rule only works for multiplication inside!"⟩
  , ⟨"forgot_plus_c", matchIntegralSign,
     "Forgetting +C in indefinite integrals",
     "Always add +C (constant of integration) for indefinite integrals",
     "The derivative of any constant is 0, so we need +C!"⟩
  , ⟨"trig_identity", matchTrigIdentity,
     "sin²θ + cos²θ = 1 misuse",
     "This identity only works for the same angle θ",
     "sin²(30°) + cos²(30°) = 1, but sin²(30°) + cos²(45°) ≠ 1"⟩
  , ⟨"negative_sqrt", matchNegativeSqrt,
     "√(-x) is real for negative x",
     "√(negative number) is not a real number",
     "In real numbers, you cannot take square root of negatives!"⟩
  , ⟨"zero_division", matchZeroDivision,
     "Dividing by zero",
     "Division by zero is undefined",
     "Before dividing, always check if denominator can be zero!"⟩ ]

/-- `_detect_mistakes` (lines 170-183): every matching rule is reported,
preserving the table order. -/
def detectMistakes (eq : String) : List MistakeHit :=
  commonMistakes.filterMap (fun r =>
    if r.test eq.data then some ⟨r.id, r.wrong, r.correct, r.tip⟩ else none)

/-! ### Expression trees and the sympy fragment

`parse_expr`, `solve`, `simplify` and `evalf` are library calls.  They
are modelled here for the fragment the solver exercises: the tokens
produced by Python's tokenizer on the normalized text, the
`standard_transformations + (implicit_multiplication_application,
convert_xor)` parse (implicit multiplication between adjacent factors,
implicit application of a known function name to a following operand,
splitting of unknown multi-letter names into single-letter symbols), the
resolution of the `local_dict` names, and exact solving of polynomial
equations of degree at most two.  Inputs outside this fragment (e.g.
transcendental equations, symbolic non-rational coefficients, floating
point evaluation of transcendental values) are modelled as the library
call failing, which the callers catch and convert into an error result. -/

inductive Expr where
| num : Q → Expr
| var : String → Expr
| piC : Expr
| eC : Expr
| iC : Expr
| add : Expr → Expr → Expr
| sub : Expr → Expr → Expr
| mul : Expr → Expr → Expr
| div : Expr → Expr → Expr
| pow : Expr → Expr → Expr
| neg : Expr → Expr
| fn : String → Expr → Expr
deriving DecidableEq, Repr

/-- Free symbols of a tree, with duplicates (model of `free_symbols`). -/
def freeVarsAux : Expr → List String
| .num _ => []
| .var s => [s]
| .piC => []
| .eC => []
| .iC => []
| .add a b => freeVarsAux a ++ freeVarsAux b
| .sub a b => freeVarsAux a ++ freeVarsAux b
| .mul a b => freeVarsAux a ++ freeVarsAux b
| .div a b => freeVarsAux a ++ freeVarsAux b
| .pow a b => freeVarsAux a ++ freeVarsAux b
| .neg a => freeVarsAux a
| .fn _ a => freeVarsAux a

/-- Deduplicate keeping first occurrences. -/
def dedupAux (seen : List String) : List String → List String
| [] => []
| s :: r => if seen.contains s then dedupAux seen r else s :: dedupAux (s :: seen) r

/-- `free_symbols` of an expression as an ordered list. -/
def freeVars (e : Expr) : List String := dedupAux [] (freeVarsAux e)

/-- `expr.has(I)`: does the imaginary unit occur in the tree? -/
def hasI : Expr → Bool
| .num _ => false
| .var _ => false
| .piC => false
| .eC => false
| .iC => true
| .add a b => hasI a || hasI b
| .sub a b => hasI a || hasI b
| .mul a b => hasI a || hasI b
| .div a b => hasI a || hasI b
| .pow a b => hasI a || hasI b
| .neg a => hasI a
| .fn _ a => hasI a

/-! #### Tokenizer (model of Python `tokenize` as used by `parse_expr`) -/

inductive Tok where
| num : Q → Tok
| name : String → Tok
| op : String → Tok
deriving DecidableEq, Repr

def digitVal (c : Char) : Nat := c.toNat - '0'.toNat

def charsToNat (ds : List Char) : Nat := ds.foldl (fun a c => a * 10 + digitVal c) 0

def isNameStart (c : Char) : Bool := c.isAlpha || c = '_'

def isNameTail (c : Char) : Bool := c.isAlpha || c.isDigit || c = '_'

/-- Tokenizer; consumes at least one character per step, so fuel equal to
the input length suffices.  Characters outside the token alphabet (e.g.
`√`, `∫`) are tokenize errors, as in Python. -/
def tokenizeF : Nat → List Char → Except String (List Tok)
| 0, _ => .error "tokenizer fuel exhausted"
| _ + 1, [] => .ok []
| f + 1, c :: r =>
  if isSpaceC c then tokenizeF f r
  else if isDigitC c then
    let p := (c :: r).span isDigitC
    match p.2 with
    | '.' :: r2 =>
      let p2 := r2.span isDigitC
      (tokenizeF f p2.2).map
        (fun ts => .num (Q.ofDecimal (charsToNat p.1) (p2.1.map digitVal)) :: ts)
    | _ => (tokenizeF f p.2).map (fun ts => .num (Q.ofInt (charsToNat p.1)) :: ts)
  else if isNameStart c then
    let p := r.span isNameTail
    (tokenizeF f p.2).map (fun ts => .name ⟨c :: p.1⟩ :: ts)
  else
    match c, r with
    | '*', '*' :: r2 => (tokenizeF f r2).map (fun ts => .op "**" :: ts)
    | '*', _ => (tokenizeF f r).map (fun ts => .op "*" :: ts)
    | '^', _ => (tokenizeF f r).map (fun ts => .op "**" :: ts)
    | '+', _ => (tokenizeF f r).map (fun ts => .op "+" :: ts)
    | '-', _ => (tokenizeF f r).map (fun ts => .op "-" :: ts)
    | '/', _ => (tokenizeF f r).map (fun ts => .op "/" :: ts)
    | '(', _ => (tokenizeF f r).map (fun ts => .op "(" :: ts)
    | ')', _ => (tokenizeF f r).map (fun ts => .op ")" :: ts)
    | '.', d :: r2 =>
      if isDigitC d then
        let p := (d :: r2).span isDigitC
        (tokenizeF f p.2).map
          (fun ts => .num (Q.ofDecimal 0 (p.1.map digitVal)) :: ts)
      else .error "invalid character"
    | _, _ => .error ("invalid character " ++ toString c)

/-! #### Parser (recursive descent, sympy transformation semantics) -/

/-- Function names bound in `local_dict` (lines 63-69). -/
def isFnName (s : String) : Bool :=
  s = "sqrt" || s = "sin" || s = "cos" || s = "tan" || s = "log" || s = "ln" || s = "exp"

/-- Resolution of a single-character symbol: `local_dict` maps `i` and
`I` to the imaginary unit; anything else is an auto-created symbol. -/
def resolveChar (c : Char) : Expr :=
  if c = 'i' ∨ c = 'I' then Expr.iC
  else if c.isDigit then Expr.num (Q.ofInt (digitVal c : Int))
  else Expr.var ⟨[c]⟩

/-- Resolution of a name token: `local_dict` entries first, then the
`split_symbols`/`auto_symbol` behaviour for unknown names (a multi-letter
unknown name splits into a product of single-letter symbols). -/
def resolveName (s : String) : Expr :=
  if s = "pi" then Expr.piC
  else if s = "e" then Expr.eC
  else if s = "i" ∨ s = "I" then Expr.iC
  else if s = "x" ∨ s = "y" ∨ s = "z" then Expr.var s
  else
    match s.data with
    | [] => Expr.var s
    | [c] => resolveChar c
    | c :: rest => rest.foldl (fun acc d => Expr.mul acc (resolveChar d)) (resolveChar c)

/-- Does a token start a factor (operand of implicit multiplication)? -/
def startsFactor : Tok → Bool
| .num _ => true
| .name _ => true
| .op s => s = "("

mutual

/-- Additive level: left-associative `+`/`-` chains. -/
def parseAdd : Nat → List Tok → Except String (Expr × List Tok)
| 0, _ => .error "parser fuel exhausted"
| f + 1, ts => do
  let r ← parseMul f ts
  parseAddLoop f r.1 r.2

def parseAddLoop : Nat → Expr → List Tok → Except String (Expr × List Tok)
| 0, _, _ => .error "parser fuel exhausted"
| f + 1, acc, .op "+" :: ts => do
  let r ← parseMul f ts
  parseAddLoop f (Expr.add acc r.1) r.2
| f + 1, acc, .op "-" :: ts => do
  let r ← parseMul f ts
  parseAddLoop f (Expr.sub acc r.1) r.2
| _ + 1, acc, ts => .ok (acc, ts)

/-- Multiplicative level: `*`, `/` and implicit multiplication between
adjacent factors (the `implicit_multiplication` transformation). -/
def parseMul : Nat → List Tok → Except String (Expr × List Tok)
| 0, _ => .error "parser fuel exhausted"
| f + 1, ts => do
  let r ← parseFac f ts
  parseMulLoop f r.1 r.2

def parseMulLoop : Nat → Expr → List Tok → Except String (Expr × List Tok)
| 0, _, _ => .error "parser fuel exhausted"
| f + 1, acc, .op "*" :: ts => do
  let r ← parseFac f ts
  parseMulLoop f (Expr.mul acc r.1) r.2
| f + 1, acc, .op "/" :: ts => do
  let r ← parseFac f ts
  parseMulLoop f (Expr.div acc r.1) r.2
| f + 1, acc, ts =>
  match ts with
  | t :: _ =>
    if startsFactor t then do
      let r ← parseFac f ts
      parseMulLoop f (Expr.mul acc r.1) r.2
    else .ok (acc, ts)
  | [] => .ok (acc, ts)

/-- Unary sign level. -/
def parseFac : Nat → List Tok → Except String (Expr × List Tok)
| 0, _ => .error "parser fuel exhausted"
| f + 1, .op "-" :: ts => do
  let r ← parseFac f ts
  .ok (Expr.neg r.1, r.2)
| f + 1, .op "+" :: ts => parseFac f ts
| f + 1, ts => parsePow f ts

/-- Power level: right-associative `**` binding tighter than unary minus
on its left, allowing a signed exponent. -/
def parsePow : Nat → List Tok → Except String (Expr × List Tok)
| 0, _ => .error "parser fuel exhausted"
| f + 1, ts => do
  let r ← parseAtom f ts
  match r.2 with
  | .op "**" :: ts2 => do
    let r2 ← parseFac f ts2
    .ok (Expr.pow r.1 r2.1, r2.2)
  | _ => .ok (r.1, r.2)

/-- Atoms: literals, parenthesized groups, names.  A known function name
must be applied — either to a parenthesized group or, via the
`implicit_application` transformation, to a following factor-starting
token; a function name used as a bare operand is an evaluation error
(sympy raises `TypeError` when arithmetic hits the function object). -/
def parseAtom : Nat → List Tok → Except String (Expr × List Tok)
| 0, _ => .error "parser fuel exhausted"
| f + 1, .num q :: ts => .ok (Expr.num q, ts)
| f + 1, .op "(" :: ts => do
  let r ← parseAdd f ts
  match r.2 with
  | .op ")" :: ts2 => .ok (r.1, ts2)
  | _ => .error "mismatched parentheses"
| f + 1, .name s :: ts =>
  if isFnName s then
    match ts with
    | .op "(" :: ts2 => do
      let r ← parseAdd f ts2
      match r.2 with
      | .op ")" :: ts3 => .ok (Expr.fn s r.1, ts3)
      | _ => .error "mismatched parentheses"
    | .num _ :: _ => do
      let r ← parseFac f ts
      .ok (Expr.fn s r.1, r.2)
    | .name _ :: _ => do
      let r ← parseFac f ts
      .ok (Expr.fn s r.1, r.2)
    | _ => .error ("unsupported operand: function " ++ s ++ " used as a value")
  else .ok (resolveName s, ts)
| _ + 1, _ => .error "invalid syntax"

end

/-- `parse_expr` with the solver's transformations, for one side of an
equation or a bare expression. -/
def parseExpr (s : String) : Except String Expr :=
  match tokenizeF (s.data.length + 1) s.data with
  | .error e => .error e
  | .ok ts =>
    match parseAdd (20 * ts.length + 20) ts with
    | .error e => .error e
    | .ok (e, []) => .ok e
    | .ok (_, _ :: _) => .error "invalid syntax (trailing tokens)"

/-! #### Polynomials over `Q` (coefficient lists, lowest degree first);
model of `as_poly` and of `solve` on polynomial equations. -/

def polyAdd : List Q → List Q → List Q
| [], q => q
| p, [] => p
| a :: p, b :: q => a.add b :: polyAdd p q

def polyNeg (p : List Q) : List Q := p.map Q.neg

def polySub (p q : List Q) : List Q := polyAdd p (polyNeg q)

def polyScale (c : Q) (p : List Q) : List Q := p.map (fun a => c.mul a)

def polyMul : List Q → List Q → List Q
| [], _ => []
| a :: p, q => polyAdd (polyScale a q) (Q.zero :: polyMul p q)

def polyPow (p : List Q) : Nat → List Q
| 0 => [⟨1, 1⟩]
| k + 1 => polyMul (polyPow p k) p

/-- Drop leading zero coefficients (highest degrees). -/
def polyTrim (p : List Q) : List Q :=
  ((p.reverse.dropWhile (fun c => c.isZero)).reverse)

/-- `(left - right).as_poly(var)` on the exact-rational fragment: `none`
models `as_poly` failing or the polynomial having non-rational or
foreign-symbol coefficients. -/
def toPoly (v : String) : Expr → Option (List Q)
| .num q => some [q]
| .var w => if w = v then some [Q.zero, ⟨1, 1⟩] else none
| .piC => none
| .eC => none
| .iC => none
| .add a b => do return polyAdd (← toPoly v a) (← toPoly v b)
| .sub a b => do return polySub (← toPoly v a) (← toPoly v b)
| .mul a b => do return polyMul (← toPoly v a) (← toPoly v b)
| .div a b => do
  let pa ← toPoly v a
  let pb ← toPoly v b
  match polyTrim pb with
  | [c] => some (polyScale (Q.div ⟨1, 1⟩ c) pa)
  | _ => none
| .pow a b => do
  let pa ← toPoly v a
  match b with
  | .num q => if q.isInt && !q.isNeg then some (polyPow pa q.n.toNat) else none
  | _ => none
| .neg a => do return polyNeg (← toPoly v a)
| .fn _ _ => none

/-- Symbolic square root of a rational constant. -/
def sqrtExprOf (d : Q) : Expr := Expr.fn "sqrt" (Expr.num d)

/-- Exact roots of `a·x² + b·x + c = 0` in sympy's ascending order: one
root for a zero discriminant, a symbolic real pair for a positive one,
an imaginary-unit pair for a negative one. -/
def quadRoots (a b c : Q) : List Expr :=
  let two : Q := ⟨2, 1⟩
  let disc := (b.mul b).sub ((⟨4, 1⟩ : Q).mul (a.mul c))
  let den := a.mul two
  if disc.isZero then [Expr.num ((b.neg).div den)]
  else if disc.isNeg then
    let re := (b.neg).div den
    let im := Expr.div (Expr.mul Expr.iC (sqrtExprOf disc.neg)) (Expr.num den)
    [Expr.sub (Expr.num re) im, Expr.add (Expr.num re) im]
  else
    match disc.sqrtExact with
    | some s =>
      [Expr.num (((b.neg).sub s).div den), Expr.num (((b.neg).add s).div den)]
    | none =>
      let sq := sqrtExprOf disc
      [Expr.div (Expr.sub (Expr.num b.neg) sq) (Expr.num den),
       Expr.div (Expr.add (Expr.num b.neg) sq) (Expr.num den)]

/-- `solve(Eq(left, right), var)` on the polynomial fragment: the root
list for degrees one and two, the empty list for constant differences,
`none` (a raised/unsupported case) beyond degree two. -/
def sympySolvePoly (p : List Q) : Option (List Expr) :=
  match polyTrim p with
  | [] => some []
  | [_] => some []
  | [c, b] => some [Expr.num ((c.neg).div b)]
  | [c, b, a] => some (quadRoots a b c)
  | _ => none

def sympySolveEq (l r : Expr) (v : String) : Option (List Expr) :=
  match toPoly v (Expr.sub l r) with
  | some p => sympySolvePoly p
  | none => none

/-! #### Exact evaluation and printing -/

/-- Exact rational evaluation of a variable-free tree; `none` models a
value outside the exact-rational fragment. -/
def evalQ : Expr → Option Q
| .num q => some q
| .var _ => none
| .piC => none
| .eC => none
| .iC => none
| .add a b => do return (← evalQ a).add (← evalQ b)
| .sub a b => do return (← evalQ a).sub (← evalQ b)
| .mul a b => do return (← evalQ a).mul (← evalQ b)
| .div a b => do
  let x ← evalQ a
  let y ← evalQ b
  if y.isZero then none else some (x.div y)
| .pow a b => do
  let x ← evalQ a
  let y ← evalQ b
  if y.isInt then
    if y.isNeg then
      if x.isZero then none
      else some (Q.div ⟨1, 1⟩ (x.powNat y.n.natAbs))
    else some (x.powNat y.n.toNat)
  else none
| .neg a => do return (← evalQ a).neg
| .fn s a =>
  if s = "sqrt" then (evalQ a).bind Q.sqrtExact else none

/-- `expr.has(zoo) or expr.has(nan) or expr.has(oo)` (line 493): sympy
produces these values at construction time when a division by an exact
zero occurs; modelled as a search for a division whose denominator
evaluates to zero. -/
def hasUndef : Expr → Bool
| .num _ => false
| .var _ => false
| .piC => false
| .eC => false
| .iC => false
| .add a b => hasUndef a || hasUndef b
| .sub a b => hasUndef a || hasUndef b
| .mul a b => hasUndef a || hasUndef b
| .div a b =>
  hasUndef a || hasUndef b ||
    (match evalQ b with
     | some q => q.isZero
     | none => false)
| .pow a b => hasUndef a || hasUndef b
| .neg a => hasUndef a
| .fn _ a => hasUndef a

/-- `simplify` modelled on the exact-rational fragment: a variable-free
exactly-evaluable tree collapses to its value, anything else is kept. -/
def simplifyE (e : Expr) : Expr :=
  match evalQ e with
  | some q => Expr.num q
  | none => e

/-- Plain infix rendering (claims constrain only the rational case,
which matches sympy's `str`). -/
def exprStr : Expr → String
| .num q => q.render
| .var s => s
| .piC => "pi"
| .eC => "E"
| .iC => "I"
| .add a b => exprStr a ++ " + " ++ exprStr b
| .sub a b => exprStr a ++ " - " ++ exprStr b
| .mul a b => exprStr a ++ "*" ++ exprStr b
| .div a b => exprStr a ++ "/" ++ exprStr b
| .pow a b => exprStr a ++ "**" ++ exprStr b
| .neg a => "-" ++ exprStr a
| .fn s a => s ++ "(" ++ exprStr a ++ ")"

/-- Floor of a rational (positive denominator invariant). -/
def Q.floorI (x : Q) : Int := Int.fdiv x.n x.d

/-- `round(value, 6)` up to the tie-breaking convention. -/
def roundTo6 (q : Q) : Q :=
  let scaled := q.mul ⟨1000000, 1⟩
  Q.mk' (Q.floorI (scaled.add ⟨1, 2⟩)) 1000000

/-- Natural number as a fixed list of decimal digit characters. -/
def natDigitsPadded (fuel : Nat) (n : Nat) : List Char :=
  match fuel with
  | 0 => []
  | f + 1 => natDigitsPadded f (n / 10) ++ [Char.ofNat ('0'.toNat + n % 10)]

/-- Decimal rendering of a rounded non-integral value, Python-float
style (`0.5`, `-2.25`). -/
def decimalString (q : Q) : String :=
  let a := q.n.natAbs
  let d := q.d.natAbs
  let ip := a / d
  let rem := a % d
  let fr := rem * 1000000 / d
  let digits := (natDigitsPadded 6 fr).reverse.dropWhile (fun c => c = '0')
  let frstr : String := ⟨digits.reverse⟩
  (if q.n < 0 then "-" else "") ++ toString ip ++ "." ++
    (if frstr = "" then "0" else frstr)

/-! ### The solver pipeline (`_solve_equation`, `_evaluate_expression`,
`_generate_explanation`, `MathSolver.solve`) -/

/-- `str.split(sep)` on a single character. -/
def splitOnChar (c : Char) : List Char → List (List Char)
| [] => [[]]
| d :: r =>
  let rest := splitOnChar c r
  if d = c then [] :: rest
  else
    match rest with
    | h :: t => (d :: h) :: t
    | [] => [[d]]

/-- The error dictionary of `_solve_equation` (lines 339-346). -/
def errorEqResult (msg : String) (steps : List String) : SolveResult :=
  { answer := "Error: " ++ msg
  , steps := steps
  , explanation := "Check equation format."
  , type := "error"
  , is_impossible := false }

/-- Lines 324-329: the equation class is chosen from the number of real
solutions (not from the polynomial degree). -/
def eqTypeOfCount (n : Nat) : String :=
  if n = 1 then "linear" else if n = 2 then "quadratic" else "polynomial"

/-- `_solve_linear_steps` (lines 348-436), abbreviated to the header and
conclusion (claims do not constrain step text); `none` models the raised
exception caught at line 304. -/
def solveLinearSteps (l r : Expr) (v : String) : Option (List String) :=
  match toPoly v (Expr.sub l r) with
  | some p =>
    match polyTrim p with
    | [c, b] =>
      some [ "📝 Equation: " ++ exprStr l ++ " = " ++ exprStr r
           , ""
           , "✅ Final Solution: " ++ v ++ " = " ++ Q.render ((c.neg).div b) ]
    | _ => none
  | none => none

/-- `_solve_quadratic_steps` (lines 438-484), abbreviated to the
standard-form, coefficient and discriminant lines. -/
def solveQuadraticSteps (l r : Expr) (v : String) : List String :=
  let diff := Expr.sub l r
  let hd := [ "🔍 This is a quadratic equation in the form ax² + bx + c = 0"
            , "1️⃣ Standard Form: " ++ exprStr (simplifyE diff) ++ " = 0" ]
  match toPoly v diff with
  | some p =>
    match polyTrim p with
    | [c, b, a] =>
      let disc := (b.mul b).sub ((⟨4, 1⟩ : Q).mul (a.mul c))
      hd ++ [ "2️⃣ Identify Coefficients: a = " ++ Q.render a ++ ", b = " ++
                Q.render b ++ ", c = " ++ Q.render c
            , "3️⃣ Calculate Discriminant: Δ = " ++ Q.render disc ]
    | _ => hd
  | none => hd

/-- Lines 297-318: detailed step generation — linear steps when there is
a single real solution and no imaginary unit, overwritten by quadratic
steps when the difference is a degree-two polynomial. -/
def detailedSteps (l r : Expr) (v : String) (realSols : List Expr) : List String :=
  let lin :=
    if realSols.length = 1 && !(hasI l || hasI r) then
      (solveLinearSteps l r v).getD []
    else []
  match toPoly v (Expr.sub l r) with
  | some p => if (polyTrim p).length = 3 then solveQuadraticSteps l r v else lin
  | none => lin

/-- Lines 269-337 of `_solve_equation`, after the solver call returned a
solution list. -/
def afterSolve (st1 st2 : String) (l r : Expr) (v : String) (sols : List Expr) : SolveResult :=
  let realSols := sols.filter (fun s => !hasI s)
  if sols.isEmpty then
    { answer := "No solution"
    , steps := [st1, st2, "❌ This equation has no solution"]
    , explanation := "No solution exists for this equation."
    , type := "no_solution"
    , is_impossible := true
    , impossible_reason := some "Equation has no solution" }
  else if realSols.isEmpty then
    { answer := "No real solution (complex only)"
    , steps := [st1, st2, "Complex solutions: " ++ String.intercalate ", " (sols.map exprStr)]
    , explanation := "This equation only has complex/imaginary solutions."
    , type := "complex_only"
    , is_impossible := true
    , impossible_reason := some "Only complex solutions exist (involves √-1)" }
  else
    let detailed := detailedSteps l r v realSols
    let steps :=
      if detailed.isEmpty then
        [st1, st2] ++ realSols.map (fun s => "✅ " ++ v ++ " = " ++ exprStr (simplifyE s))
      else detailed
    let answer :=
      if realSols.length = 1 then
        v ++ " = " ++ exprStr (simplifyE (realSols.headD (Expr.num Q.zero)))
      else
        v ++ " = " ++ String.intercalate " or " (realSols.map (fun s => exprStr (simplifyE s)))
    { answer := answer
    , steps := steps
    , explanation := "Solved for " ++ v ++ "."
    , type := eqTypeOfCount realSols.length
    , is_impossible := false }

/-- Lines 251-267 of `_solve_equation`: equation construction,
variable-free verification, choice of the solved-for variable, the
`solve` call. -/
def afterParse (st1 : String) (l r : Expr) : SolveResult :=
  match dedupAux [] (freeVarsAux l ++ freeVarsAux r) with
  | [] =>
    let isTrue :=
      match evalQ (Expr.sub l r) with
      | some q => q.isZero
      | none => false
    { answer := if isTrue then "True ✓" else "False ✗"
    , steps := [st1]
    , explanation := "Verified equation."
    , type := "verification"
    , is_impossible := false }
  | v :: _ =>
    let st2 := "🔍 Solving for: " ++ v
    match sympySolveEq l r v with
    | none => errorEqResult "could not solve equation" [st1, st2]
    | some sols => afterSolve st1 st2 l r v sols

/-- `_solve_equation` (lines 236-346). -/
def solveEquation (eqs : String) : SolveResult :=
  match splitOnChar '=' eqs.data with
  | [lp, rp] =>
    let ls : String := ⟨pyStrip lp⟩
    let rs : String := ⟨pyStrip rp⟩
    let st1 := "📝 Equation: " ++ ls ++ " = " ++ rs
    match parseExpr ls with
    | .error e => errorEqResult e [st1]
    | .ok l =>
      match parseExpr rs with
      | .error e => errorEqResult e [st1]
      | .ok r => afterParse st1 l r
  | _ => errorEqResult "Invalid equation" []

/-- `_evaluate_expression` (lines 486-534). -/
def evaluateExpression (s : String) : SolveResult :=
  let steps0 := ["📝 Expression: " ++ s]
  match parseExpr s with
  | .error e =>
    { answer := "Error: " ++ e
    , steps := steps0
    , explanation := "Check expression."
    , type := "error"
    , is_impossible := false }
  | .ok expr =>
    if hasUndef expr then
      { answer := "Undefined"
      , steps := steps0 ++ ["⚠️ This expression is undefined"]
      , explanation := "Expression results in undefined value (infinity or NaN)"
      , type := "impossible"
      , is_impossible := true
      , impossible_reason := some "Expression is undefined" }
    else if !(freeVars expr).isEmpty then
      let simplified := simplifyE expr
      { answer := exprStr simplified
      , steps := steps0 ++ ["📐 Simplified: " ++ exprStr simplified]
      , explanation := "Simplified expression."
      , type := "algebraic"
      , is_impossible := false }
    else
      match evalQ expr with
      | some q =>
        let astr := if q.isInt then toString q.n else decimalString (roundTo6 q)
        { answer := astr
        , steps := steps0 ++ ["🔢 Result: " ++ astr]
        , explanation := "Calculated result."
        , type := "arithmetic"
        , is_impossible := false }
      | none =>
        { answer := "Error: could not evaluate numerically"
        , steps := steps0
        , explanation := "Check expression."
        , type := "error"
        , is_impossible := false }

/-- `_generate_explanation` (lines 185-200); the `eq` and `mode`
arguments are accepted and never read, exactly as in the source. -/
def generateExplanation (eq : String) (r : SolveResult) (mode : String) : String :=
  if r.type = "linear" then
    "To solve this linear equation, we isolate the variable by performing the same operations on both sides until we get the final answer: " ++ r.answer ++ "."
  else if r.type = "quadratic" then
    "This is a quadratic equation. We can solve it using the quadratic formula or factoring to find the roots: " ++ r.answer ++ "."
  else if r.type = "arithmetic" then
    "By following the order of operations (PEMDAS/BODMAS), we calculate the expression to get: " ++ r.answer ++ "."
  else if r.type = "verification" then
    "We evaluate both sides of the equation to check if they are equal."
  else r.explanation

/-- Line 87-90: dispatch between equation and expression mode
(`'=' in equation_str`). -/
def solveInner (eq : String) : SolveResult :=
  if eq.data.contains '=' then solveEquation eq else evaluateExpression eq

/-- Lines 92-99: attach the detected mistakes, regenerate the
explanation, record the explanation mode. -/
def finalize (eq : String) (r : SolveResult) (mistakes : List MistakeHit) (mode : String) : SolveResult :=
  let result := { r with common_mistakes := mistakes }
  { result with
      explanation := generateExplanation eq result mode
    , explanation_mode := some "standard" }

/-- `MathSolver.solve` (lines 71-111).  The components above are total,
so the outer `except` branch (lines 103-111) is unreachable for string
inputs and its dictionary is not produced by any path here. -/
def solve (equationStr : String) (explanationMode : String) : SolveResult :=
  match checkImpossible (preprocess equationStr) with
  | some res => res
  | none =>
    finalize (preprocess equationStr) (solveInner (preprocess equationStr))
      (detectMistakes (preprocess equationStr)) explanationMode

/-! ### Invariant lemmas shared by the claim theorems -/

/-- The ten `type` values the engine can produce. -/
def validTypes : List String :=
  [ "verification", "linear", "quadratic", "polynomial", "arithmetic"
  , "algebraic", "no_solution", "complex_only", "impossible", "error" ]

/-- Boolean string-prefix test on the character lists. -/
def strHasPrefix (p s : String) : Bool := p.data.isPrefixOf s.data

/-- Shape of a result: the fields constrained by the record invariants. -/
def resultOk (r : SolveResult) : Prop :=
  r.impossible_reason.isSome = r.is_impossible ∧
  r.type ∈ validTypes ∧
  (r.type = "error" → strHasPrefix "Error: " r.answer = true)

/-- Substring test used to state claims about normalized text. -/
def strContainsSub (p s : String) : Bool :=
  search (fun t => p.data.isPrefixOf t) s.data

/-! ### Pattern predicates used to reason about the normalizer -/

/-- No adjacent pair of characters satisfies `q`. -/
def NoAdj (q : Char → Char → Bool) : List Char → Prop
| a :: b :: r => q a b = false ∧ NoAdj q (b :: r)
| _ => True

/-- No three consecutive characters satisfy `p`. -/
def No3 (p : Char → Char → Char → Bool) : List Char → Prop
| a :: b :: c :: r => p a b c = false ∧ No3 p (b :: c :: r)
| _ => True

/-- The letter-star-letter pattern: a `*` splitting two letters, which is
what an insertion inside a name token would produce. -/
def lslB (a b c : Char) : Bool := isAsciiLetter a && (b == '*') && isAsciiLetter c

/-- A character none of the five substitution passes rewrites. -/
def inertChar (c : Char) : Prop :=
  superF c = none ∧ caretF c = none ∧ mulSignF c = none ∧
    divSignF c = none ∧ minusF c = none

lemma isPrefixOf_append_self (l t : List Char) : l.isPrefixOf (l ++ t) = true := by
  induction l with
  | nil => simp [List.isPrefixOf]
  | cons c r ih => simp [List.isPrefixOf, ih]

lemma strHasPrefix_append (p m : String) : strHasPrefix p (p ++ m) = true := by
  have : (p ++ m).data = p.data ++ m.data := rfl
  simp [strHasPrefix, this, isPrefixOf_append_self]

lemma errorEqResult_ok (msg : String) (st : List String) : resultOk (errorEqResult msg st) := by
  refine ⟨rfl, by simp [errorEqResult, validTypes], ?_⟩
  intro _
  exact strHasPrefix_append "Error: " msg

lemma eqTypeOfCount_mem (n : Nat) : eqTypeOfCount n ∈ validTypes := by
  unfold eqTypeOfCount
  split
  · simp [validTypes]
  · split <;> simp [validTypes]

lemma eqTypeOfCount_ne_error (n : Nat) : eqTypeOfCount n ≠ "error" := by
  unfold eqTypeOfCount
  split
  · decide
  · split <;> decide

lemma afterSolve_ok (st1 st2 : String) (l r : Expr) (v : String) (sols : List Expr) :
    resultOk (afterSolve st1 st2 l r v sols) := by
  simp only [afterSolve]
  split
  · exact ⟨rfl, by simp [validTypes], fun h => by simp at h⟩
  · split
    · exact ⟨rfl, by simp [validTypes], fun h => by simp at h⟩
    · exact ⟨rfl, eqTypeOfCount_mem _, fun h => absurd h (eqTypeOfCount_ne_error _)⟩

lemma afterParse_ok (st1 : String) (l r : Expr) : resultOk (afterParse st1 l r) := by
  simp only [afterParse]
  split
  · exact ⟨rfl, by simp [validTypes], fun h => by simp at h⟩
  · split
    · exact errorEqResult_ok _ _
    · exact afterSolve_ok _ _ _ _ _ _

lemma solveEquation_ok (eqs : String) : resultOk (solveEquation eqs) := by
  simp only [solveEquation]
  split
  · split
    · exact errorEqResult_ok _ _
    · split
      · exact errorEqResult_ok _ _
      · exact afterParse_ok _ _ _
  · exact errorEqResult_ok _ _

lemma evaluateExpression_ok (s : String) : resultOk (evaluateExpression s) := by
  simp only [evaluateExpression]
  split
  · refine ⟨rfl, by simp [validTypes], ?_⟩
    intro _
    exact strHasPrefix_append "Error: " _
  · split
    · exact ⟨rfl, by simp [validTypes], fun h => by simp at h⟩
    · split
      · exact ⟨rfl, by simp [validTypes], fun h => by simp at h⟩
      · split
        · exact ⟨rfl, by simp [validTypes], fun h => by simp at h⟩
        · refine ⟨rfl, by simp [validTypes], ?_⟩
          intro _
          exact strHasPrefix_append "Error: " _

lemma checkImpossible_ok (eq : String) (r : SolveResult)
    (h : checkImpossible eq = some r) : resultOk r ∧ r.common_mistakes = [] ∧
      r.explanation_mode = none := by
  unfold checkImpossible at h
  split at h
  · cases h
    exact ⟨⟨rfl, by simp [validTypes], fun h => by simp at h⟩, rfl, rfl⟩
  · split at h
    · cases h
      exact ⟨⟨rfl, by simp [validTypes], fun h => by simp at h⟩, rfl, rfl⟩
    · split at h
      · cases h
        exact ⟨⟨rfl, by simp [validTypes], fun h => by simp at h⟩, rfl, rfl⟩
      · split at h
        · cases h
          exact ⟨⟨rfl, by simp [validTypes], fun h => by simp at h⟩, rfl, rfl⟩
        · cases h

lemma solve_eq_of_checkImpossible_none (s m : String)
    (h : checkImpossible (preprocess s) = none) :
    solve s m =
      finalize (preprocess s) (solveInner (preprocess s)) (detectMistakes (preprocess s)) m := by
  unfold solve
  rw [h]

lemma solve_eq_of_checkImpossible_some (s m : String) (r : SolveResult)
    (h : checkImpossible (preprocess s) = some r) : solve s m = r := by
  unfold solve
  rw [h]

/-- The updates in `finalize` leave every field other than
`common_mistakes`, `explanation` and `explanation_mode` unchanged. -/
lemma finalize_fields (eq : String) (r : SolveResult) (ms : List MistakeHit) (m : String) :
    (finalize eq r ms m).answer = r.answer ∧
    (finalize eq r ms m).type = r.type ∧
    (finalize eq r ms m).is_impossible = r.is_impossible ∧
    (finalize eq r ms m).impossible_reason = r.impossible_reason ∧
    (finalize eq r ms m).common_mistakes = ms ∧
    (finalize eq r ms m).explanation_mode = some "standard" :=
  ⟨rfl, rfl, rfl, rfl, rfl, rfl⟩

lemma solveInner_ok (eq : String) : resultOk (solveInner eq) := by
  unfold solveInner
  split
  · exact solveEquation_ok _
  · exact evaluateExpression_ok _

lemma solve_ok (s m : String) : resultOk (solve s m) := by
  cases h : checkImpossible (preprocess s) with
  | some r =>
    rw [solve_eq_of_checkImpossible_some s m r h]
    exact (checkImpossible_ok _ _ h).1
  | none =>
    rw [solve_eq_of_checkImpossible_none s m h]
    obtain ⟨ha, ht, hi, hr, -, -⟩ :=
      finalize_fields (preprocess s) (solveInner (preprocess s)) (detectMistakes (preprocess s)) m
    obtain ⟨o1, o2, o3⟩ := solveInner_ok (preprocess s)
    refine ⟨?_, ?_, ?_⟩
    · rw [hr, hi]; exact o1
    · rw [ht]; exact o2
    · intro h2
      rw [ha]
      exact o3 (by rw [← ht]; exact h2)

/-! ### Claim theorems -/

/-- C1 (counterexample): the claim predicts `equation_type = quadratic`
for `x^2 - 4x + 4 = 0` (a degree-two difference), but the engine returns
`linear` for it — classification follows the number of real solutions,
and the double root yields a single one — while the answer is `x = 2` as
predicted. -/
theorem c1_counterexample :
    (solve "x^2 - 4x + 4 = 0" "standard").type = "linear" ∧
    (solve "x^2 - 4x + 4 = 0" "standard").answer = "x = 2" ∧
    (solve "x^2 - 4x + 4 = 0" "standard").type ≠ "quadratic" := by decide

/-- C1 (amended): on the solved path the equation class is determined by
the number of real solutions — one gives `linear`, two give `quadratic`,
any other count gives `polynomial` — not by the polynomial degree; in
particular `"x^2 - 4x + 4 = 0"` (degree two, one real solution) yields
`equation_type = linear` with answer `"x = 2"`. -/
theorem c1_classification :
    (∀ (st1 st2 : String) (l r : Expr) (v : String) (sols : List Expr),
      sols ≠ [] → sols.filter (fun s => !hasI s) ≠ [] →
      (afterSolve st1 st2 l r v sols).type =
        eqTypeOfCount (sols.filter (fun s => !hasI s)).length) ∧
    (solve "x^2 - 4x + 4 = 0" "standard").type = "linear" ∧
    (solve "x^2 - 4x + 4 = 0" "standard").answer = "x = 2" := by
  refine ⟨?_, by decide, by decide⟩
  intro st1 st2 l r v sols hne hrne
  have h1 : ¬(sols.isEmpty = true) := fun h => hne (List.isEmpty_iff.mp h)
  have h2 : ¬((sols.filter (fun s => !hasI s)).isEmpty = true) := fun h =>
    hrne (List.isEmpty_iff.mp h)
  simp only [afterSolve]
  rw [if_neg h1, if_neg h2]

/-- C1 (witness for the amended classification statement). -/
theorem c1_classification_witness :
    ([Expr.num ⟨2, 1⟩] : List Expr) ≠ [] ∧
    (([Expr.num ⟨2, 1⟩] : List Expr).filter (fun s => !hasI s)) ≠ [] ∧
    (afterSolve "a" "b" (Expr.var "x") (Expr.num Q.zero) "x" [Expr.num ⟨2, 1⟩]).type =
      eqTypeOfCount (([Expr.num ⟨2, 1⟩] : List Expr).filter (fun s => !hasI s)).length :=
  ⟨by decide, by decide,
    c1_classification.1 "a" "b" (Expr.var "x") (Expr.num Q.zero) "x"
      [Expr.num ⟨2, 1⟩] (by decide) (by decide)⟩

/-- C2: `solve` is a total function — for every input it returns a
record whose `type` is one of the ten classes, and on the failure paths
(type `error`) the answer is the diagnostic `Error: ...` string. -/
theorem c2_solve_total_wellformed (s m : String) :
    (solve s m).type ∈ validTypes ∧
    ((solve s m).type = "error" → strHasPrefix "Error: " (solve s m).answer = true) :=
  ⟨(solve_ok s m).2.1, (solve_ok s m).2.2⟩

/-- C2 (witness): a malformed input reaches the error path with a
diagnostic answer. -/
theorem c2_solve_total_wellformed_witness :
    (solve "(((" "standard").type = "error" ∧
    strHasPrefix "Error: " (solve "(((" "standard").answer = true := by
  refine ⟨by decide, ?_⟩
  exact (c2_solve_total_wellformed "(((" "standard").2 (by decide)

/-- C3 (code bug): for `"sin(x) = 2"` the claim (and the spec) require an
`impossible` result, but normalization rewrites `sin(` to `sin*(`, so the
range pre-check regex (whose optional `\(?` was written for exactly this
form) no longer matches, the parse of `sin*(x)` fails, and the engine
returns an `error` result with `is_impossible = false`. -/
theorem c3_sin_range_check_bypassed :
    preprocess "sin(x) = 2" = "sin*(x) = 2" ∧
    checkImpossible (preprocess "sin(x) = 2") = none ∧
    (solve "sin(x) = 2" "standard").type = "error" ∧
    (solve "sin(x) = 2" "standard").is_impossible = false := by decide

/-- C3 (context): the unparenthesized spelling does reach the range
check, showing the pre-check itself works when normalization does not
get in the way. -/
theorem c3_sin_range_check_fires_without_parens :
    (solve "sinx = 2" "standard").type = "impossible" ∧
    (solve "sinx = 2" "standard").is_impossible = true := by decide

/-- C5 (code bug): the claim (and the spec) require `"sqrt(16) + 3"` to
evaluate to `arithmetic`/`"7"`, but normalization rewrites `sqrt(` to
`sqrt*(`, the parse of `sqrt*(16) + 3` fails, and the engine returns an
`error` result instead. -/
theorem c5_sqrt_expression_errors :
    preprocess "sqrt(16) + 3" = "sqrt*(16) + 3" ∧
    (solve "sqrt(16) + 3" "standard").type = "error" ∧
    (solve "sqrt(16) + 3" "standard").answer ≠ "7" := by decide

/-- C5 (context): with a space before the parenthesis the insertion rule
does not fire and the expression evaluates to `7` as the spec expects. -/
theorem c5_sqrt_expression_with_space_evaluates :
    (solve "sqrt (16) + 3" "standard").type = "arithmetic" ∧
    (solve "sqrt (16) + 3" "standard").answer = "7" := by decide

/-- C6 (counterexample): mistake detection does not run on every input —
on the domain-validator short-circuit path the result carries an empty
`common_mistakes` even though a rule pattern matches: for `"√-4"` the
`negative_sqrt` rule matches the text, yet the returned list is empty. -/
theorem c6_counterexample :
    (solve "√-4" "standard").common_mistakes = [] ∧
    detectMistakes (preprocess "√-4") ≠ [] := by decide

/-- C6 (amended): on every input that the domain validator does not
short-circuit, the result's `common_mistakes` is exactly the list of
matching rules, even when the input later fails to parse or solve; in
particular `"√(4+9)"` (which fails to parse: `√` is not a valid token)
reports the `sqrt_addition` hit. -/
theorem c6_mistakes_reported_unless_short_circuited :
    (∀ s m : String, checkImpossible (preprocess s) = none →
      (solve s m).common_mistakes = detectMistakes (preprocess s)) ∧
    ((solve "√(4+9)" "standard").common_mistakes.map (fun h => h.id) = ["sqrt_addition"]) ∧
    (solve "√(4+9)" "standard").type = "error" := by
  refine ⟨?_, by decide, by decide⟩
  intro s m h
  rw [solve_eq_of_checkImpossible_none s m h]
  rfl

/-- C6 (witness for the amended statement). -/
theorem c6_mistakes_witness :
    checkImpossible (preprocess "√(4+9)") = none ∧
    (solve "√(4+9)" "standard").common_mistakes = detectMistakes (preprocess "√(4+9)") :=
  ⟨by decide,
    c6_mistakes_reported_unless_short_circuited.1 "√(4+9)" "standard" (by decide)⟩

/-- C8: on every return path, `impossible_reason` is populated exactly
when `is_impossible` is true. -/
theorem c8_impossible_reason_iff_impossible (s m : String) :
    ((solve s m).impossible_reason).isSome = (solve s m).is_impossible :=
  (solve_ok s m).1

/-- C9 (counterexample): the returned `explanation_mode` field is not
always `"standard"` — on the domain-validator short-circuit path the
field is absent (the Python dictionaries returned there carry no
`explanation_mode` key). -/
theorem c9_counterexample :
    (solve "sinx = 2" "eli5").explanation_mode ≠ some "standard" := by decide

/-- C9 (amended): the `explanation_mode` argument never influences the
result — `solve s m₁ = solve s m₂` for all modes — and the
`explanation_mode` field is either absent (short-circuit results) or the
string `"standard"`. -/
theorem c9_mode_does_not_influence_output :
    (∀ s m₁ m₂ : String, solve s m₁ = solve s m₂) ∧
    (∀ s m : String, (solve s m).explanation_mode = none ∨
      (solve s m).explanation_mode = some "standard") := by
  constructor
  · intro s m₁ m₂
    rfl
  · intro s m
    cases hc : checkImpossible (preprocess s) with
    | some r =>
      rw [solve_eq_of_checkImpossible_some s m r hc]
      exact Or.inl (checkImpossible_ok _ _ hc).2.2
    | none =>
      rw [solve_eq_of_checkImpossible_none s m hc]
      exact Or.inr rfl

/-- C10: whenever the domain-validator pre-check fires, the returned
`common_mistakes` is the empty list — the mistake detector is skipped on
the short-circuit path. -/
theorem c10_short_circuit_empty_mistakes (s m : String)
    (h : (checkImpossible (preprocess s)).isSome = true) :
    (solve s m).common_mistakes = [] := by
  cases hc : checkImpossible (preprocess s) with
  | some r =>
    rw [solve_eq_of_checkImpossible_some s m r hc]
    exact (checkImpossible_ok _ _ hc).2.1
  | none =>
    rw [hc] at h
    simp at h

/-- C10 (witness): `"√-9"` fires the negative-radicand pre-check while
the `negative_sqrt` mistake rule matches the same text, and the result
still carries no mistakes. -/
theorem c10_short_circuit_witness :
    (checkImpossible (preprocess "√-9")).isSome = true ∧
    detectMistakes (preprocess "√-9") ≠ [] ∧
    (solve "√-9" "standard").common_mistakes = [] :=
  ⟨by decide, by decide, c10_short_circuit_empty_mistakes "√-9" "standard" (by decide)⟩

/-! ### Character-class facts -/

lemma digit_isAlpha_false {c : Char} (h : isDigitC c = true) : isAsciiLetter c = false := by
  simp only [isDigitC, Char.isDigit, Bool.and_eq_true, decide_eq_true_eq, ge_iff_le,
    UInt32.le_def, BitVec.le_def] at h
  simp only [isAsciiLetter, Char.isAlpha, Char.isUpper, Char.isLower, Bool.or_eq_false_iff,
    Bool.and_eq_false_iff, decide_eq_false_iff_not, ge_iff_le, not_le,
    UInt32.le_def, UInt32.lt_def, BitVec.le_def, BitVec.lt_def]
  have h48 : (UInt32.toBitVec 48).toNat = 48 := by decide
  have h57 : (UInt32.toBitVec 57).toNat = 57 := by decide
  have h65 : (UInt32.toBitVec 65).toNat = 65 := by decide
  have h90 : (UInt32.toBitVec 90).toNat = 90 := by decide
  have h97 : (UInt32.toBitVec 97).toNat = 97 := by decide
  have h122 : (UInt32.toBitVec 122).toNat = 122 := by decide
  omega

lemma alpha_isDigit_false {c : Char} (h : isAsciiLetter c = true) : isDigitC c = false := by
  cases hd : isDigitC c with
  | false => rfl
  | true => rw [digit_isAlpha_false hd] at h; cases h

lemma star_not_alpha : isAsciiLetter '*' = false := by decide

lemma star_not_digit : isDigitC '*' = false := by decide

lemma alpha_ne_of_not {c d : Char} (h : isAsciiLetter c = true)
    (hd : isAsciiLetter d = false) : c ≠ d := by
  intro he
  rw [he, hd] at h
  cases h

/-! ### Generic lemmas about the insertion passes -/

lemma noAdj_tail {q : Char → Char → Bool} {x : Char} {l : List Char} :
    NoAdj q (x :: l) → NoAdj q l :=
  match l with
  | [] => fun _ => trivial
  | _ :: _ => fun h => h.2

lemma noAdj_cons {q : Char → Char → Bool} {x : Char} {l : List Char}
    (h1 : ∀ y r, l = y :: r → q x y = false) (h2 : NoAdj q l) : NoAdj q (x :: l) :=
  match l with
  | [] => trivial
  | y :: r => ⟨h1 y r rfl, h2⟩

lemma ins_head (q : Char → Char → Bool) : ∀ l, (ins q l).head? = l.head?
  | [] => rfl
  | [_] => rfl
  | a :: b :: r => by
    simp only [ins]
    split <;> rfl

lemma cons_of_ins_cons {q : Char → Char → Bool} {r : List Char} {y : Char} {rr : List Char}
    (hy : ins q r = y :: rr) : ∃ r', r = y :: r' := by
  have hh := ins_head q r
  rw [hy] at hh
  cases r with
  | nil => simp at hh
  | cons c r' =>
    simp only [List.head?_cons, Option.some.injEq] at hh
    exact ⟨r', by rw [hh]⟩

theorem ins_id (q : Char → Char → Bool) : ∀ l, NoAdj q l → ins q l = l
  | [], _ => rfl
  | [_], _ => rfl
  | a :: b :: r, h => by
    simp only [ins]
    rw [if_neg (by simp [h.1])]
    exact congrArg (a :: ·) (ins_id q (b :: r) h.2)

theorem mem_ins (q : Char → Char → Bool) : ∀ l c, c ∈ ins q l → c = '*' ∨ c ∈ l
  | [], _, h => Or.inr h
  | [_], _, h => Or.inr h
  | a :: b :: r, c, h => by
    simp only [ins] at h
    split at h
    · simp only [List.mem_cons] at h
      rcases h with h | h | h | h
      · exact Or.inr (by simp [h])
      · exact Or.inl h
      · exact Or.inr (by simp [h])
      · rcases mem_ins q r c h with h' | h'
        · exact Or.inl h'
        · exact Or.inr (by simp [h'])
    · simp only [List.mem_cons] at h
      rcases h with h | h
      · exact Or.inr (by simp [h])
      · rcases mem_ins q (b :: r) c h with h' | h'
        · exact Or.inl h'
        · exact Or.inr (by simp only [List.mem_cons] at h' ⊢; tauto)

theorem ins_noAdj (q : Char → Char → Bool)
    (hov : ∀ a b c, q a b = true → q b c = false)
    (hstar : ∀ a, q a '*' = false ∧ q '*' a = false) :
    ∀ l, NoAdj q (ins q l)
  | [] => trivial
  | [_] => trivial
  | a :: b :: r => by
    simp only [ins]
    split
    · next hq =>
      have t0 : NoAdj q (ins q r) := ins_noAdj q hov hstar r
      have t1 : NoAdj q (b :: ins q r) :=
        noAdj_cons (fun y rr hy => hov a b y hq) t0
      exact ⟨(hstar a).1, (hstar b).2, t1⟩
    · next hq =>
      have t0 : NoAdj q (ins q (b :: r)) := ins_noAdj q hov hstar (b :: r)
      refine noAdj_cons (fun y rr hy => ?_) t0
      obtain ⟨r', hr⟩ := cons_of_ins_cons hy
      obtain ⟨he, -⟩ := List.cons.inj hr
      rw [← he]
      simpa using hq

theorem ins_pres (q p : Char → Char → Bool)
    (hpstar : ∀ a, p a '*' = false ∧ p '*' a = false) :
    ∀ l, NoAdj p l → NoAdj p (ins q l)
  | [], _ => trivial
  | [_], _ => trivial
  | a :: b :: r, h => by
    simp only [ins]
    split
    · have t0 : NoAdj p (ins q r) := ins_pres q p hpstar r (noAdj_tail (noAdj_tail h))
      have t1 : NoAdj p (b :: ins q r) := by
        refine noAdj_cons (fun y rr hy => ?_) t0
        obtain ⟨r', hr⟩ := cons_of_ins_cons hy
        have h2 := h.2
        rw [hr] at h2
        exact h2.1
      exact ⟨(hpstar a).1, (hpstar b).2, t1⟩
    · have t0 : NoAdj p (ins q (b :: r)) := ins_pres q p hpstar (b :: r) h.2
      refine noAdj_cons (fun y rr hy => ?_) t0
      obtain ⟨r', hr⟩ := cons_of_ins_cons hy
      obtain ⟨he, -⟩ := List.cons.inj hr
      rw [← he]
      exact h.1

/-! ### Generic lemmas about the letter-star-letter pattern -/

lemma no3_tail {p : Char → Char → Char → Bool} {x : Char} {l : List Char} :
    No3 p (x :: l) → No3 p l :=
  match l with
  | [] => fun _ => trivial
  | [_] => fun _ => trivial
  | _ :: _ :: _ => fun h => h.2

lemma no3_cons {p : Char → Char → Char → Bool} {x : Char} {l : List Char}
    (h1 : ∀ y z rr, l = y :: z :: rr → p x y z = false) (h2 : No3 p l) : No3 p (x :: l) :=
  match l with
  | [] => trivial
  | [_] => trivial
  | y :: z :: rr => ⟨h1 y z rr rfl, h2⟩

lemma lslB_star_first (u v : Char) : lslB '*' u v = false := by
  simp [lslB, star_not_alpha]

lemma lslB_star_third (u v : Char) : lslB u v '*' = false := by
  simp [lslB, star_not_alpha]

lemma lslB_of_letters {a b : Char} (h : (isAsciiLetter a && isAsciiLetter b) = false) :
    lslB a '*' b = false := by
  simp only [lslB, beq_self_eq_true, Bool.and_true]
  exact h

theorem ins_pres3_cons (q : Char → Char → Bool)
    (hll : ∀ a b, q a b = true → (isAsciiLetter a && isAsciiLetter b) = false) :
    ∀ (x : Char) (l : List Char), No3 lslB (x :: l) → No3 lslB (x :: ins q l)
  | _, [], _ => trivial
  | _, [_], _ => trivial
  | x, y :: z :: r, h => by
    simp only [ins]
    split
    · next hq =>
      have hzr : No3 lslB (z :: ins q r) :=
        ins_pres3_cons q hll z r (no3_tail (no3_tail h))
      have t1 : No3 lslB ('*' :: z :: ins q r) :=
        no3_cons (fun u v rr' hu => lslB_star_first u v) hzr
      have t2 : No3 lslB (y :: '*' :: z :: ins q r) :=
        ⟨lslB_of_letters (hll y z hq), t1⟩
      exact ⟨lslB_star_third x y, t2⟩
    · next hq =>
      have hyz : No3 lslB (y :: ins q (z :: r)) :=
        ins_pres3_cons q hll y (z :: r) (no3_tail h)
      refine no3_cons (fun u v rr' hu => ?_) hyz
      obtain ⟨hu1, hu2⟩ := List.cons.inj hu
      obtain ⟨r'', hr⟩ := cons_of_ins_cons hu2
      obtain ⟨hv, -⟩ := List.cons.inj hr
      rw [← hu1, ← hv]
      exact h.1

theorem ins_pres3 (q : Char → Char → Bool)
    (hll : ∀ a b, q a b = true → (isAsciiLetter a && isAsciiLetter b) = false) :
    ∀ l, No3 lslB l → No3 lslB (ins q l)
  | [], _ => trivial
  | [_], _ => trivial
  | a :: b :: r, h => by
    simp only [ins]
    split
    · next hq =>
      have hbr : No3 lslB (b :: ins q r) :=
        ins_pres3_cons q hll b r (no3_tail h)
      have t1 : No3 lslB ('*' :: b :: ins q r) :=
        no3_cons (fun u v rr' hu => lslB_star_first u v) hbr
      exact ⟨lslB_of_letters (hll a b hq), t1⟩
    · exact ins_pres3_cons q hll a (b :: r) h

theorem no3_map (g : Char → Char)
    (hg : ∀ c, isAsciiLetter (g c) = isAsciiLetter c ∧ ((g c == '*') = (c == '*'))) :
    ∀ l, No3 lslB l → No3 lslB (l.map g)
  | [], _ => trivial
  | [_], _ => trivial
  | [_, _], _ => trivial
  | a :: b :: c :: r, h => by
    show No3 lslB (g a :: g b :: g c :: (b :: c :: r).tail.tail.map g)
    refine ⟨?_, no3_map g hg (b :: c :: r) h.2⟩
    have h1 := h.1
    simp only [lslB] at h1 ⊢
    rw [(hg a).1, (hg b).2, (hg c).1]
    exact h1

/-! ### Lemmas about the substitution passes -/

theorem repl_id (f : Char → Option (List Char)) :
    ∀ l, (∀ c ∈ l, f c = none) → repl f l = l
  | [], _ => rfl
  | c :: r, h => by
    simp only [repl, h c (List.mem_cons_self c r)]
    exact congrArg (c :: ·) (repl_id f r (fun d hd => h d (List.mem_cons_of_mem c hd)))

theorem mem_repl (f : Char → Option (List Char)) :
    ∀ l c, c ∈ repl f l →
      ∃ a, a ∈ l ∧ ((f a = none ∧ c = a) ∨ (∃ cs, f a = some cs ∧ c ∈ cs))
  | [], c, h => absurd h (by simp [repl])
  | a :: r, c, h => by
    simp only [repl] at h
    rw [List.mem_append] at h
    cases h with
    | inl h =>
      refine ⟨a, List.mem_cons_self a r, ?_⟩
      cases hf : f a with
      | none =>
        simp only [hf] at h
        simp only [List.mem_singleton] at h
        exact Or.inl ⟨rfl, h⟩
      | some cs =>
        simp only [hf] at h
        exact Or.inr ⟨cs, rfl, h⟩
    | inr h =>
      obtain ⟨b, hb, hx⟩ := mem_repl f r c h
      exact ⟨b, List.mem_cons_of_mem a hb, hx⟩

lemma superF_some {a : Char} {cs : List Char} (h : superF a = some cs) :
    ∃ d, superDigit a = some d ∧ cs = ['*', '*', d] := by
  unfold superF at h
  cases hsd : superDigit a with
  | none => rw [hsd] at h; cases h
  | some d =>
    rw [hsd] at h
    injection h with h'
    exact ⟨d, rfl, h'.symm⟩

lemma superF_of_superDigit {a d : Char} (h : superDigit a = some d) : superF d = none := by
  unfold superDigit at h
  repeat' split at h
  all_goals first
    | (injection h with h2; rw [← h2]; decide)
    | exact Option.noConfusion h

lemma caretF_some {a : Char} {cs : List Char} (h : caretF a = some cs) : cs = ['*', '*'] := by
  unfold caretF at h
  split at h
  · injection h with h'; exact h'.symm
  · cases h

lemma caretF_none {a : Char} (h : a ≠ '^') : caretF a = none := by
  unfold caretF
  rw [if_neg h]

lemma mulSignF_some {a : Char} {cs : List Char} (h : mulSignF a = some cs) : cs = ['*'] := by
  unfold mulSignF at h
  split at h
  · injection h with h'; exact h'.symm
  · cases h

lemma divSignF_some {a : Char} {cs : List Char} (h : divSignF a = some cs) : cs = ['/'] := by
  unfold divSignF at h
  split at h
  · injection h with h'; exact h'.symm
  · cases h

lemma minusF_some {a : Char} {cs : List Char} (h : minusF a = some cs) : cs = ['-'] := by
  unfold minusF at h
  split at h
  · injection h with h'; exact h'.symm
  · cases h

theorem mem_collapse : ∀ l c, c ∈ collapse l → c ∈ l := by
  intro l
  induction l using collapse.induct with
  | case1 a b r hd ih =>
    intro c h
    rw [collapse.eq_1, if_pos hd] at h
    simp only [List.mem_cons] at h ⊢
    rcases h with h | h | h | h | h
    · tauto
    · tauto
    · tauto
    · tauto
    · have := ih c h
      simp only [List.mem_cons] at this
      tauto
  | case2 a b r hd ih =>
    intro c h
    rw [collapse.eq_1, if_neg hd] at h
    simp only [List.mem_cons] at h ⊢
    rcases h with h | h
    · tauto
    · have := ih c h
      simp only [List.mem_cons] at this
      tauto
  | case3 c r hne ih =>
    intro d h
    rw [collapse.eq_2 c r hne] at h
    simp only [List.mem_cons] at h ⊢
    rcases h with h | h
    · exact Or.inl h
    · exact Or.inr (ih d h)
  | case4 =>
    intro c h
    rw [collapse.eq_3] at h
    cases h

/-! ### Lemmas about stripping -/

theorem trimRight_eats : ∀ l : List Char, ∃ t, l = trimRight l ++ t
  | [] => ⟨[], rfl⟩
  | c :: r => by
    obtain ⟨t, ht⟩ := trimRight_eats r
    cases htr : trimRight r with
    | nil =>
      by_cases hc : isSpaceC c = true
      · refine ⟨c :: r, ?_⟩
        rw [trimRight.eq_2, htr]
        show c :: r = (if isSpaceC c = true then [] else [c]) ++ c :: r
        rw [if_pos hc]
        rfl
      · refine ⟨r, ?_⟩
        rw [trimRight.eq_2, htr]
        show c :: r = (if isSpaceC c = true then [] else [c]) ++ r
        rw [if_neg hc]
        rfl
    | cons d t' =>
      rw [htr] at ht
      refine ⟨t, ?_⟩
      rw [trimRight.eq_2, htr]
      show c :: r = (c :: d :: t') ++ t
      rw [List.cons_append, ← ht]

theorem trimRight_idem : ∀ l : List Char, trimRight (trimRight l) = trimRight l
  | [] => rfl
  | c :: r => by
    cases htr : trimRight r with
    | nil =>
      have h1 : trimRight (c :: r) = if isSpaceC c = true then [] else [c] := by
        rw [trimRight.eq_2, htr]
      rw [h1]
      by_cases hc : isSpaceC c = true
      · rw [if_pos hc]; rfl
      · rw [if_neg hc]
        rw [trimRight.eq_2]
        show (if isSpaceC c = true then [] else [c]) = [c]
        rw [if_neg hc]
    | cons d t' =>
      have h1 : trimRight (c :: r) = c :: d :: t' := by
        rw [trimRight.eq_2, htr]
      rw [h1]
      have h2 : trimRight (d :: t') = d :: t' := by
        rw [← htr]
        exact trimRight_idem r
      rw [trimRight.eq_2, h2]

theorem trimRight_head : ∀ l : List Char, trimRight l = [] ∨ (trimRight l).head? = l.head?
  | [] => Or.inl rfl
  | c :: r => by
    cases htr : trimRight r with
    | nil =>
      have h1 : trimRight (c :: r) = if isSpaceC c = true then [] else [c] := by
        rw [trimRight.eq_2, htr]
      by_cases hc : isSpaceC c = true
      · exact Or.inl (by rw [h1, if_pos hc])
      · refine Or.inr ?_
        rw [h1, if_neg hc]
        rfl
    | cons d t' =>
      have h1 : trimRight (c :: r) = c :: d :: t' := by
        rw [trimRight.eq_2, htr]
      exact Or.inr (by rw [h1]; rfl)

lemma dropWhile_head_false (f : Char → Bool) :
    ∀ (l : List Char) (y : Char), (l.dropWhile f).head? = some y → f y = false
  | [], y, h => by simp at h
  | c :: r, y, h => by
    simp only [List.dropWhile] at h
    split at h
    · exact dropWhile_head_false f r y h
    · next hc =>
      simp only [List.head?_cons, Option.some.injEq] at h
      rw [← h]
      simpa using hc

theorem pyStrip_idem (l : List Char) : pyStrip (pyStrip l) = pyStrip l := by
  unfold pyStrip
  have h1 : (trimRight (l.dropWhile isSpaceC)).dropWhile isSpaceC =
      trimRight (l.dropWhile isSpaceC) := by
    cases h : trimRight (l.dropWhile isSpaceC) with
    | nil => rfl
    | cons y t =>
      rcases trimRight_head (l.dropWhile isSpaceC) with h0 | h0
      · rw [h] at h0; cases h0
      · rw [h] at h0
        have hy : isSpaceC y = false := dropWhile_head_false isSpaceC l y h0.symm
        simp [List.dropWhile, hy]
  rw [h1, trimRight_idem]

lemma mem_trimRight {c : Char} {l : List Char} (h : c ∈ trimRight l) : c ∈ l := by
  obtain ⟨t, ht⟩ := trimRight_eats l
  rw [ht]
  exact List.mem_append_left t h

lemma mem_dropWhile {c : Char} {f : Char → Bool} : ∀ {l : List Char}, c ∈ l.dropWhile f → c ∈ l := by
  intro l
  induction l with
  | nil => intro h; simp at h
  | cons d r ih =>
    intro h
    simp only [List.dropWhile] at h
    split at h
    · exact List.mem_cons_of_mem d (ih h)
    · exact h

lemma mem_pyStrip {c : Char} {l : List Char} (h : c ∈ pyStrip l) : c ∈ l :=
  mem_dropWhile (mem_trimRight h)

theorem noAdj_dropWhile (q : Char → Char → Bool) (f : Char → Bool) :
    ∀ l, NoAdj q l → NoAdj q (l.dropWhile f)
  | [], _ => trivial
  | c :: r, h => by
    simp only [List.dropWhile]
    split
    · exact noAdj_dropWhile q f r (noAdj_tail h)
    · exact h

theorem noAdj_append_left (q : Char → Char → Bool) :
    ∀ l t, NoAdj q (l ++ t) → NoAdj q l
  | [], _, _ => trivial
  | [_], _, _ => trivial
  | a :: b :: r, t, h => ⟨h.1, noAdj_append_left q (b :: r) t h.2⟩

lemma noAdj_pyStrip (q : Char → Char → Bool) {l : List Char} (h : NoAdj q l) :
    NoAdj q (pyStrip l) := by
  unfold pyStrip
  obtain ⟨t, ht⟩ := trimRight_eats (l.dropWhile isSpaceC)
  have hd := noAdj_dropWhile q isSpaceC l h
  rw [ht] at hd
  exact noAdj_append_left q _ t hd

theorem no3_dropWhile (p : Char → Char → Char → Bool) (f : Char → Bool) :
    ∀ l, No3 p l → No3 p (l.dropWhile f)
  | [], _ => trivial
  | c :: r, h => by
    simp only [List.dropWhile]
    split
    · exact no3_dropWhile p f r (no3_tail h)
    · exact h

theorem no3_append_left (p : Char → Char → Char → Bool) :
    ∀ l t, No3 p (l ++ t) → No3 p l
  | [], _, _ => trivial
  | [_], _, _ => trivial
  | [_, _], _, _ => trivial
  | a :: b :: c :: r, t, h => ⟨h.1, no3_append_left p (b :: c :: r) t h.2⟩

lemma no3_pyStrip (p : Char → Char → Char → Bool) {l : List Char} (h : No3 p l) :
    No3 p (pyStrip l) := by
  unfold pyStrip
  obtain ⟨t, ht⟩ := trimRight_eats (l.dropWhile isSpaceC)
  have hd := no3_dropWhile p isSpaceC l h
  rw [ht] at hd
  exact no3_append_left p _ t hd

/-! ### The normalized text contains no substitution-pass characters -/

lemma inert_star : inertChar '*' :=
  ⟨by decide, by decide, by decide, by decide, by decide⟩

lemma stage_superF (l : List Char) : ∀ c ∈ repl superF l, superF c = none := by
  intro c h
  obtain ⟨a, ha, hx⟩ := mem_repl superF l c h
  rcases hx with ⟨hf, rfl⟩ | ⟨cs, hf, hc⟩
  · exact hf
  · obtain ⟨d, hd, rfl⟩ := superF_some hf
    simp only [List.mem_cons, List.not_mem_nil, or_false] at hc
    rcases hc with rfl | rfl | rfl
    · decide
    · decide
    · exact superF_of_superDigit hd

lemma stage_caretF (t : List Char) (ht : ∀ c ∈ t, superF c = none) :
    ∀ c ∈ repl caretF t, superF c = none ∧ caretF c = none := by
  intro c h
  obtain ⟨a, ha, hx⟩ := mem_repl caretF t c h
  rcases hx with ⟨hf, rfl⟩ | ⟨cs, hf, hc⟩
  · exact ⟨ht c ha, hf⟩
  · rw [caretF_some hf] at hc
    simp only [List.mem_cons, List.not_mem_nil, or_false] at hc
    rcases hc with rfl | rfl
    · exact ⟨by decide, by decide⟩
    · exact ⟨by decide, by decide⟩

lemma stage_mulF (t : List Char) (ht : ∀ c ∈ t, superF c = none ∧ caretF c = none) :
    ∀ c ∈ repl mulSignF t, superF c = none ∧ caretF c = none ∧ mulSignF c = none := by
  intro c h
  obtain ⟨a, ha, hx⟩ := mem_repl mulSignF t c h
  rcases hx with ⟨hf, rfl⟩ | ⟨cs, hf, hc⟩
  · exact ⟨(ht c ha).1, (ht c ha).2, hf⟩
  · rw [mulSignF_some hf] at hc
    simp only [List.mem_cons, List.not_mem_nil, or_false] at hc
    rcases hc with rfl
    exact ⟨by decide, by decide, by decide⟩

lemma stage_divF (t : List Char)
    (ht : ∀ c ∈ t, superF c = none ∧ caretF c = none ∧ mulSignF c = none) :
    ∀ c ∈ repl divSignF t,
      superF c = none ∧ caretF c = none ∧ mulSignF c = none ∧ divSignF c = none := by
  intro c h
  obtain ⟨a, ha, hx⟩ := mem_repl divSignF t c h
  rcases hx with ⟨hf, rfl⟩ | ⟨cs, hf, hc⟩
  · exact ⟨(ht c ha).1, (ht c ha).2.1, (ht c ha).2.2, hf⟩
  · rw [divSignF_some hf] at hc
    simp only [List.mem_cons, List.not_mem_nil, or_false] at hc
    rcases hc with rfl
    exact ⟨by decide, by decide, by decide, by decide⟩

lemma stage_minusF (t : List Char)
    (ht : ∀ c ∈ t, superF c = none ∧ caretF c = none ∧ mulSignF c = none ∧ divSignF c = none) :
    ∀ c ∈ repl minusF t, inertChar c := by
  intro c h
  obtain ⟨a, ha, hx⟩ := mem_repl minusF t c h
  rcases hx with ⟨hf, rfl⟩ | ⟨cs, hf, hc⟩
  · exact ⟨(ht c ha).1, (ht c ha).2.1, (ht c ha).2.2.1, (ht c ha).2.2.2, hf⟩
  · rw [minusF_some hf] at hc
    simp only [List.mem_cons, List.not_mem_nil, or_false] at hc
    rcases hc with rfl
    exact ⟨by decide, by decide, by decide, by decide, by decide⟩

lemma inert_subChain (l : List Char) :
    ∀ c ∈ repl minusF (repl divSignF (repl mulSignF (repl caretF (collapse (repl superF l))))),
      inertChar c := by
  intro c h
  refine stage_minusF _ ?_ c h
  intro c2 h2
  refine stage_divF _ ?_ c2 h2
  intro c3 h3
  refine stage_mulF _ ?_ c3 h3
  intro c4 h4
  refine stage_caretF _ ?_ c4 h4
  intro c5 h5
  exact stage_superF l c5 (mem_collapse _ c5 h5)

lemma out_inert (l : List Char) : ∀ c ∈ preprocessL l, inertChar c := by
  intro c h
  unfold preprocessL at h
  have h1 := mem_pyStrip h
  rcases mem_ins _ _ _ h1 with rfl | h2
  · exact inert_star
  rcases mem_ins _ _ _ h2 with rfl | h3
  · exact inert_star
  rcases mem_ins _ _ _ h3 with rfl | h4
  · exact inert_star
  rcases mem_ins _ _ _ h4 with rfl | h5
  · exact inert_star
  rcases mem_ins _ _ _ h5 with rfl | h6
  · exact inert_star
  exact inert_subChain l c h6

/-! ### The insertion boundaries are all eliminated by the normalizer -/

lemma qDL_star (a : Char) : qDigitLetter a '*' = false ∧ qDigitLetter '*' a = false :=
  ⟨by simp [qDigitLetter, star_not_alpha], rfl⟩

lemma qPP_star (a : Char) : qParenParen a '*' = false ∧ qParenParen '*' a = false :=
  ⟨by simp [qParenParen], rfl⟩

lemma qDP_star (a : Char) : qDigitParen a '*' = false ∧ qDigitParen '*' a = false :=
  ⟨by simp [qDigitParen], rfl⟩

lemma qLP_star (a : Char) : qLetterParen a '*' = false ∧ qLetterParen '*' a = false :=
  ⟨by simp [qLetterParen], by simp [qLetterParen, star_not_alpha]⟩

lemma qPL_star (a : Char) : qParenLetter a '*' = false ∧ qParenLetter '*' a = false :=
  ⟨by simp [qParenLetter, star_not_alpha], rfl⟩

lemma qDL_hov (a b c : Char) (h : qDigitLetter a b = true) : qDigitLetter b c = false := by
  have hb : isAsciiLetter b = true := by
    simp only [qDigitLetter, Bool.and_eq_true] at h
    exact h.2
  simp [qDigitLetter, alpha_isDigit_false hb]

lemma qPP_hov (a b c : Char) (h : qParenParen a b = true) : qParenParen b c = false := by
  simp only [qParenParen, Bool.and_eq_true, decide_eq_true_eq] at h
  rw [h.2]
  rfl

lemma qDP_hov (a b c : Char) (h : qDigitParen a b = true) : qDigitParen b c = false := by
  simp only [qDigitParen, Bool.and_eq_true, decide_eq_true_eq] at h
  rw [h.2]
  rfl

lemma qLP_hov (a b c : Char) (h : qLetterParen a b = true) : qLetterParen b c = false := by
  simp only [qLetterParen, Bool.and_eq_true, decide_eq_true_eq] at h
  rw [h.2]
  rfl

lemma qPL_hov (a b c : Char) (h : qParenLetter a b = true) : qParenLetter b c = false := by
  have hb : isAsciiLetter b = true := by
    simp only [qParenLetter, Bool.and_eq_true] at h
    exact h.2
  have hne : b ≠ ')' := alpha_ne_of_not hb (by decide)
  simp [qParenLetter, hne]

lemma out_noAdj (l : List Char) :
    NoAdj qDigitLetter (preprocessL l) ∧ NoAdj qParenParen (preprocessL l) ∧
    NoAdj qDigitParen (preprocessL l) ∧ NoAdj qLetterParen (preprocessL l) ∧
    NoAdj qParenLetter (preprocessL l) := by
  unfold preprocessL
  refine ⟨?_, ?_, ?_, ?_, ?_⟩
  · exact noAdj_pyStrip _ (ins_pres _ _ qDL_star _ (ins_pres _ _ qDL_star _
      (ins_pres _ _ qDL_star _ (ins_pres _ _ qDL_star _
        (ins_noAdj _ qDL_hov qDL_star _)))))
  · exact noAdj_pyStrip _ (ins_pres _ _ qPP_star _ (ins_pres _ _ qPP_star _
      (ins_pres _ _ qPP_star _ (ins_noAdj _ qPP_hov qPP_star _))))
  · exact noAdj_pyStrip _ (ins_pres _ _ qDP_star _ (ins_pres _ _ qDP_star _
      (ins_noAdj _ qDP_hov qDP_star _)))
  · exact noAdj_pyStrip _ (ins_pres _ _ qLP_star _ (ins_noAdj _ qLP_hov qLP_star _))
  · exact noAdj_pyStrip _ (ins_noAdj _ qPL_hov qPL_star _)

/-- Core of the idempotence analysis: once the collapse pass is inert on
a normalized text, every other pass is inert on it as well. -/
theorem preprocessL_idem (l : List Char)
    (hc : collapse (preprocessL l) = preprocessL l) :
    preprocessL (preprocessL l) = preprocessL l := by
  obtain ⟨n1, n2, n3, n4, n5⟩ := out_noAdj l
  have hin := out_inert l
  have hstrip : pyStrip (preprocessL l) = preprocessL l := by
    show pyStrip (preprocessL l) = preprocessL l
    conv_lhs => rw [show preprocessL l = pyStrip (ins qParenLetter (ins qLetterParen
      (ins qDigitParen (ins qParenParen (ins qDigitLetter (repl minusF (repl divSignF
        (repl mulSignF (repl caretF (collapse (repl superF l))))))))))) from rfl]
    rw [pyStrip_idem]
    rfl
  conv_lhs => rw [preprocessL]
  rw [repl_id superF (preprocessL l) (fun c hcm => (hin c hcm).1)]
  rw [hc]
  rw [repl_id caretF (preprocessL l) (fun c hcm => (hin c hcm).2.1)]
  rw [repl_id mulSignF (preprocessL l) (fun c hcm => (hin c hcm).2.2.1)]
  rw [repl_id divSignF (preprocessL l) (fun c hcm => (hin c hcm).2.2.2.1)]
  rw [repl_id minusF (preprocessL l) (fun c hcm => (hin c hcm).2.2.2.2)]
  rw [ins_id qDigitLetter (preprocessL l) n1]
  rw [ins_id qParenParen (preprocessL l) n2]
  rw [ins_id qDigitParen (preprocessL l) n3]
  rw [ins_id qLetterParen (preprocessL l) n4]
  rw [ins_id qParenLetter (preprocessL l) n5]
  exact hstrip

/-- C7 (counterexample): normalization is not idempotent.  The collapse
pass (line 216) runs before the caret substitution (line 219), so a first
pass can produce the collapse pattern `**d**e` that only a second pass
rewrites: `normalize "x^2^3" = "x**2**3"` but
`normalize "x**2**3" = "x**23"`. -/
theorem c7_counterexample :
    preprocess "x^2^3" = "x**2**3" ∧
    preprocess (preprocess "x^2^3") = "x**23" ∧
    preprocess (preprocess "x^2^3") ≠ preprocess "x^2^3" := by decide

/-- C7 (amended): normalization is idempotent on every input whose
normal form the collapse pass leaves unchanged (equivalently, whose
normal form contains no `**d**e` pattern); the caret and
multiplication-sign substitutions are the only passes that can create
that pattern after the collapse pass has already run. -/
theorem c7_idempotent_when_collapse_inert (s : String)
    (h : collapse (preprocess s).data = (preprocess s).data) :
    preprocess (preprocess s) = preprocess s := by
  by_cases hs : s.data = []
  · have h0 : preprocess s = "" := by
      unfold preprocess
      rw [if_pos hs]
    rw [h0]
    rfl
  · have h0 : preprocess s = ⟨preprocessL s.data⟩ := by
      unfold preprocess
      rw [if_neg hs]
    rw [h0] at h ⊢
    show preprocess ⟨preprocessL s.data⟩ = ⟨preprocessL s.data⟩
    unfold preprocess
    by_cases h2 : preprocessL s.data = []
    · rw [if_pos (show (⟨preprocessL s.data⟩ : String).data = [] from h2)]
      rw [show ("" : String) = ⟨[]⟩ from rfl]
      exact congrArg String.mk h2.symm
    · rw [if_neg (show ¬((⟨preprocessL s.data⟩ : String).data = []) from h2)]
      exact congrArg String.mk (preprocessL_idem s.data h)

/-- C7 (witness): a well-behaved input on which idempotence holds. -/
theorem c7_idempotent_witness :
    collapse (preprocess "2x + 3 = 7").data = (preprocess "2x + 3 = 7").data ∧
    preprocess (preprocess "2x + 3 = 7") = preprocess "2x + 3 = 7" :=
  ⟨by decide, c7_idempotent_when_collapse_inert "2x + 3 = 7" (by decide)⟩

/-! ### The normalizer never inserts a star between two letters -/

lemma repl_divSignF_map : ∀ l, repl divSignF l = l.map (fun c => if c = '÷' then '/' else c)
  | [] => rfl
  | c :: r => by
    simp only [repl, List.map]
    by_cases hc : c = '÷'
    · subst hc
      rw [if_pos rfl]
      simp only [show divSignF '÷' = some ['/'] from rfl, List.singleton_append]
      rw [repl_divSignF_map r]
    · rw [if_neg hc]
      have hn : divSignF c = none := by
        unfold divSignF
        rw [if_neg hc]
      simp only [hn, List.singleton_append]
      rw [repl_divSignF_map r]

lemma repl_minusF_map :
    ∀ l, repl minusF l = l.map (fun c => if c = '−' ∨ c = '—' then '-' else c)
  | [] => rfl
  | c :: r => by
    simp only [repl, List.map]
    by_cases hc : c = '−' ∨ c = '—'
    · rw [if_pos hc]
      have hs : minusF c = some ['-'] := by
        unfold minusF
        rw [if_pos hc]
      simp only [hs, List.singleton_append]
      rw [repl_minusF_map r]
    · rw [if_neg hc]
      have hn : minusF c = none := by
        unfold minusF
        rw [if_neg hc]
      simp only [hn, List.singleton_append]
      rw [repl_minusF_map r]

lemma div_map_ok (c : Char) :
    isAsciiLetter (if c = '÷' then '/' else c) = isAsciiLetter c ∧
    (((if c = '÷' then '/' else c) == '*') = (c == '*')) := by
  by_cases hc : c = '÷'
  · subst hc
    exact ⟨by decide, by decide⟩
  · rw [if_neg hc]
    exact ⟨rfl, rfl⟩

lemma minus_map_ok (c : Char) :
    isAsciiLetter (if c = '−' ∨ c = '—' then '-' else c) = isAsciiLetter c ∧
    (((if c = '−' ∨ c = '—' then '-' else c) == '*') = (c == '*')) := by
  by_cases hc : c = '−' ∨ c = '—'
  · rcases hc with rfl | rfl
    · exact ⟨by decide, by decide⟩
    · exact ⟨by decide, by decide⟩
  · rw [if_neg hc]
    exact ⟨rfl, rfl⟩

lemma qDL_ll (a b : Char) (h : qDigitLetter a b = true) :
    (isAsciiLetter a && isAsciiLetter b) = false := by
  have ha : isDigitC a = true := by
    simp only [qDigitLetter, Bool.and_eq_true] at h
    exact h.1
  simp [digit_isAlpha_false ha]

lemma qPP_ll (a b : Char) (h : qParenParen a b = true) :
    (isAsciiLetter a && isAsciiLetter b) = false := by
  simp only [qParenParen, Bool.and_eq_true, decide_eq_true_eq] at h
  rw [h.1]
  rfl

lemma qDP_ll (a b : Char) (h : qDigitParen a b = true) :
    (isAsciiLetter a && isAsciiLetter b) = false := by
  have ha : isDigitC a = true := by
    simp only [qDigitParen, Bool.and_eq_true] at h
    exact h.1
  simp [digit_isAlpha_false ha]

lemma qLP_ll (a b : Char) (h : qLetterParen a b = true) :
    (isAsciiLetter a && isAsciiLetter b) = false := by
  simp only [qLetterParen, Bool.and_eq_true, decide_eq_true_eq] at h
  rw [h.2]
  simp [show isAsciiLetter '(' = false from rfl]

lemma qPL_ll (a b : Char) (h : qParenLetter a b = true) :
    (isAsciiLetter a && isAsciiLetter b) = false := by
  simp only [qParenLetter, Bool.and_eq_true, decide_eq_true_eq] at h
  rw [h.1]
  rfl

/-- On inputs the four substitution passes leave alone, the whole
pipeline never creates a letter-star-letter pattern. -/
theorem preprocessL_no3 (l : List Char)
    (h3 : No3 lslB l)
    (hsup : ∀ c ∈ l, superF c = none)
    (hcar : ∀ c ∈ l, caretF c = none)
    (hmul : ∀ c ∈ l, mulSignF c = none)
    (hcol : collapse l = l) :
    No3 lslB (preprocessL l) := by
  unfold preprocessL
  rw [repl_id superF l hsup, hcol, repl_id caretF l hcar, repl_id mulSignF l hmul]
  rw [repl_divSignF_map l, repl_minusF_map _]
  have t0 : No3 lslB (l.map (fun c => if c = '÷' then '/' else c)) :=
    no3_map _ div_map_ok l h3
  have t1 := no3_map _ minus_map_ok _ t0
  have t2 := ins_pres3 qDigitLetter qDL_ll _ t1
  have t3 := ins_pres3 qParenParen qPP_ll _ t2
  have t4 := ins_pres3 qDigitParen qDP_ll _ t3
  have t5 := ins_pres3 qLetterParen qLP_ll _ t4
  have t6 := ins_pres3 qParenLetter qPL_ll _ t5
  exact no3_pyStrip _ t6

/-- C4 (counterexample): the normalized output of `"sin(x)"` does not
keep the function name applied directly to its argument — the
letter-open-paren rule fires after the `n` of `sin` as well, producing
`sin*(x)`, so `sin(` is no longer a substring of the output. -/
theorem c4_counterexample :
    preprocess "sin(x)" = "sin*(x)" ∧
    strContainsSub "sin(" (preprocess "sin(x)") = false := by decide

/-- C4 (amended): implicit multiplication is inserted at the four
adjacency boundaries and never inside a function name token — on any
input that the superscript, caret, multiplication-sign and collapse
passes leave unchanged, normalization creates no letter-star-letter
pattern, so a name is never split (`s*in` never appears); but the
letter-open-paren boundary applies after a function name too, so
`sin(x)` normalizes to `sin*(x)` and the name is separated from its
argument. -/
theorem c4_no_insertion_inside_names :
    (∀ s : String, No3 lslB s.data →
      (∀ c ∈ s.data, superF c = none ∧ caretF c = none ∧ mulSignF c = none) →
      collapse s.data = s.data →
      No3 lslB (preprocess s).data) ∧
    preprocess "sin(x)" = "sin*(x)" ∧
    strContainsSub "s*in" (preprocess "sin(x)") = false := by
  refine ⟨?_, by decide, by decide⟩
  intro s h3 hcs hcol
  by_cases hs : s.data = []
  · unfold preprocess
    rw [if_pos hs]
    trivial
  · unfold preprocess
    rw [if_neg hs]
    show No3 lslB (preprocessL s.data)
    exact preprocessL_no3 s.data h3 (fun c hc => (hcs c hc).1)
      (fun c hc => (hcs c hc).2.1) (fun c hc => (hcs c hc).2.2) hcol

/-- C4 (witness for the amended statement, at the input `"sin(x)"`). -/
theorem c4_no_insertion_witness :
    No3 lslB ("sin(x)" : String).data ∧
    No3 lslB (preprocess "sin(x)").data :=
  ⟨⟨by decide, by decide, by decide, by decide, trivial⟩,
    c4_no_insertion_inside_names.1 "sin(x)"
      ⟨by decide, by decide, by decide, by decide, trivial⟩
      (by decide) (by decide)⟩

end MathSolver
